import Mathlib

/-!
Verification development for the conversational order-service agent
(`app/agents/sample_shipping_agent.py`, `app/repositories/order_repository.py`,
`app/agents/handler.py`).

The Python source is shallowly embedded: pure helpers become Lean functions,
the per-context conversation state machine becomes an explicit state-passing
function, and the external collaborators (order store lookups/updates, the
LLM call) are passed in as oracle arguments.  Calendar arithmetic models
Python's `datetime` on the proleptic Gregorian calendar (`toordinal`
day numbers, `weekday()` with Monday = 0, years restricted to 1..9999).
Randomized choices (`random.randint`) are modelled by passing the drawn
value as an explicit argument.
-/

namespace BCAgent

/-! ## Calendar arithmetic (model of Python `datetime.date`) -/

structure SDate where
  year : Nat
  month : Nat
  day : Nat
deriving DecidableEq, Repr

/-- Gregorian leap-year rule, as used by `datetime`. -/
def isLeap (y : Nat) : Bool :=
  (y % 4 == 0 && y % 100 != 0) || y % 400 == 0

/-- Number of days in month `m` of year `y` (months outside 1..12 get 31;
they never reach date construction in the embedded code paths). -/
def daysInMonth (y m : Nat) : Nat :=
  if m = 2 then (if isLeap y then 29 else 28)
  else if m = 4 ∨ m = 6 ∨ m = 9 ∨ m = 11 then 30
  else 31

/-- Days in year `y` strictly before month `m` (so `cumDays y 1 = 0`). -/
def cumDays (y : Nat) : Nat → Nat
  | 0 => 0
  | 1 => 0
  | m + 2 => cumDays y (m + 1) + daysInMonth y (m + 1)

/-- `datetime.date.toordinal`: day number with 0001-01-01 ↦ 1. -/
def toOrd (d : SDate) : Nat :=
  365 * (d.year - 1) + (d.year - 1) / 4 - (d.year - 1) / 100 + (d.year - 1) / 400
    + cumDays d.year d.month + d.day

/-- The dates `datetime` can represent (year 1..9999, valid month/day). -/
def ValidDate (d : SDate) : Prop :=
  1 ≤ d.year ∧ d.year ≤ 9999 ∧ 1 ≤ d.month ∧ d.month ≤ 12 ∧
    1 ≤ d.day ∧ d.day ≤ daysInMonth d.year d.month

instance (d : SDate) : Decidable (ValidDate d) := by
  unfold ValidDate; infer_instance

/-- Successor day (the one-day step of `timedelta(days=1)` addition). -/
def succDay (d : SDate) : SDate :=
  if d.day < daysInMonth d.year d.month then ⟨d.year, d.month, d.day + 1⟩
  else if d.month < 12 then ⟨d.year, d.month + 1, 1⟩
  else ⟨d.year + 1, 1, 1⟩

/-- `today + timedelta(days=n)` restricted to the date part. -/
def addDays (d : SDate) : Nat → SDate
  | 0 => d
  | n + 1 => succDay (addDays d n)

/-- `datetime.weekday()`: Monday = 0 (0001-01-01 was a Monday). -/
def weekdayOf (d : SDate) : Nat := (toOrd d + 6) % 7

theorem daysInMonth_bounds (y m : Nat) :
    28 ≤ daysInMonth y m ∧ daysInMonth y m ≤ 31 := by
  unfold daysInMonth
  split
  · split <;> omega
  · split <;> omega

theorem succDay_valid {d : SDate} (h : ValidDate d) (hy : d.year ≤ 9998) :
    ValidDate (succDay d) := by
  obtain ⟨y, m, dd⟩ := d
  obtain ⟨h1, h2, h3, h4, h5, h6⟩ := h
  replace h1 : 1 ≤ y := h1
  replace h2 : y ≤ 9999 := h2
  replace h3 : 1 ≤ m := h3
  replace h4 : m ≤ 12 := h4
  replace h5 : 1 ≤ dd := h5
  replace h6 : dd ≤ daysInMonth y m := h6
  replace hy : y ≤ 9998 := hy
  unfold succDay
  split
  · next hc =>
    replace hc : dd < daysInMonth y m := hc
    refine ⟨h1, h2, h3, h4, ?_, ?_⟩
    · show 1 ≤ dd + 1; omega
    · show dd + 1 ≤ daysInMonth y m; omega
  · split
    · next _ hc =>
      replace hc : m < 12 := hc
      have hb := daysInMonth_bounds y (m + 1)
      refine ⟨h1, h2, ?_, ?_, ?_, ?_⟩
      · show 1 ≤ m + 1; omega
      · show m + 1 ≤ 12; omega
      · show 1 ≤ 1; omega
      · show 1 ≤ daysInMonth y (m + 1); omega
    · have hb := daysInMonth_bounds (y + 1) 1
      refine ⟨?_, ?_, ?_, ?_, ?_, ?_⟩
      · show 1 ≤ y + 1; omega
      · show y + 1 ≤ 9999; omega
      · show 1 ≤ 1; omega
      · show (1 : Nat) ≤ 12; omega
      · show 1 ≤ 1; omega
      · show 1 ≤ daysInMonth (y + 1) 1; omega

theorem cumDays_succ (y m : Nat) (hm : 1 ≤ m) :
    cumDays y (m + 1) = cumDays y m + daysInMonth y m := by
  match m, hm with
  | m + 1, _ => rfl

theorem cumDays_twelve (y : Nat) :
    cumDays y 12 + daysInMonth y 12 = 365 + (if isLeap y then 1 else 0) := by
  by_cases h : isLeap y <;>
    simp only [cumDays, daysInMonth, h, if_true, if_false] <;> norm_num

set_option maxHeartbeats 2000000 in
theorem toOrd_succDay {d : SDate} (h : ValidDate d) :
    toOrd (succDay d) = toOrd d + 1 := by
  obtain ⟨y, m, dd⟩ := d
  obtain ⟨h1, _h2, h3, h4, _h5, h6⟩ := h
  replace h1 : 1 ≤ y := h1
  replace h3 : 1 ≤ m := h3
  replace h4 : m ≤ 12 := h4
  replace h6 : dd ≤ daysInMonth y m := h6
  unfold succDay
  split
  · show toOrd ⟨y, m, dd + 1⟩ = toOrd ⟨y, m, dd⟩ + 1
    unfold toOrd
    dsimp only
    omega
  · split
    · next hc hc2 =>
      replace hc : ¬ dd < daysInMonth y m := hc
      show toOrd ⟨y, m + 1, 1⟩ = toOrd ⟨y, m, dd⟩ + 1
      unfold toOrd
      dsimp only
      rw [cumDays_succ y m h3]
      omega
    · next hc hc2 =>
      replace hc : ¬ dd < daysInMonth y m := hc
      replace hc2 : ¬ m < 12 := hc2
      -- December 31 → January 1 of the next year
      have hm12 : m = 12 := by omega
      subst hm12
      have hd12 : daysInMonth y 12 = 31 := by unfold daysInMonth; norm_num
      have hday : dd = 31 := by omega
      subst hday
      show toOrd ⟨y + 1, 1, 1⟩ = toOrd ⟨y, 12, 31⟩ + 1
      unfold toOrd
      dsimp only
      have hcum12 := cumDays_twelve y
      rw [hd12] at hcum12
      have hcum0 : cumDays (y + 1) 1 = 0 := rfl
      rw [hcum0]
      generalize hgen : cumDays y 12 = C at hcum12 ⊢
      by_cases hL : isLeap y = true
      · have hmod : (y % 4 = 0 ∧ ¬ y % 100 = 0) ∨ y % 400 = 0 := by
          simpa only [isLeap, Bool.or_eq_true, Bool.and_eq_true, beq_iff_eq,
            bne_iff_ne, ne_eq] using hL
        rw [if_pos hL] at hcum12
        omega
      · have hmod : ¬ ((y % 4 = 0 ∧ ¬ y % 100 = 0) ∨ y % 400 = 0) := by
          simpa only [isLeap, Bool.or_eq_true, Bool.and_eq_true, beq_iff_eq,
            bne_iff_ne, ne_eq] using hL
        rw [if_neg hL] at hcum12
        omega

theorem addDays_valid {d : SDate} (h : ValidDate d) :
    ∀ n, d.year + n ≤ 9999 → ValidDate (addDays d n) ∧ (addDays d n).year ≤ d.year + n := by
  intro n
  induction n with
  | zero => exact fun _ => ⟨h, Nat.le_refl _⟩
  | succ k ih =>
    intro hy
    obtain ⟨hv, hyk⟩ := ih (by omega)
    refine ⟨succDay_valid hv (by omega), ?_⟩
    show (succDay (addDays d k)).year ≤ _
    have hstep : (succDay (addDays d k)).year ≤ (addDays d k).year + 1 := by
      unfold succDay
      split
      · exact Nat.le_succ _
      · split
        · exact Nat.le_succ _
        · exact Nat.le_refl _
    omega

theorem toOrd_addDays {d : SDate} (h : ValidDate d) (n : Nat)
    (hy : d.year + n ≤ 9999) : toOrd (addDays d n) = toOrd d + n := by
  induction n with
  | zero => rfl
  | succ k ih =>
    have hv := (addDays_valid h k (by omega)).1
    show toOrd (succDay (addDays d k)) = _
    rw [toOrd_succDay hv, ih (by omega)]
    omega

/-! ## Character classes and pattern matchers (ASCII model of the `re` patterns)

Each Python regex used by the agent is embedded as a hand-compiled matcher
over `List Char`.  Greedy quantifiers whose alternatives are mutually
exclusive (a digit can never equal the separator that must follow, an
ordinal suffix starts with a letter which also fails the following `\b`)
are compiled deterministically; where real backtracking can fire (the
day part of the `M/D` pattern against its lookahead, the month-name
alternation against its continuation) the alternatives are tried in
`re`'s order. -/

def isWordChar (c : Char) : Bool := c.isAlphanum || c == '_'

def isSpaceChar (c : Char) : Bool :=
  c == ' ' || c == '\t' || c == '\n' || c == '\r' || c.toNat == 11 || c.toNat == 12

/-- `\b` between an optional preceding character and a word character. -/
def boundaryOK : Option Char → Bool
  | none => true
  | some c => !isWordChar c

/-- `\b` between the end of a match and the rest of the input. -/
def bEnd : List Char → Bool
  | [] => true
  | c :: _ => !isWordChar c

def digitVal (c : Char) : Nat := c.toNat - '0'.toNat

def natOfDigits (ds : List Char) : Nat := ds.foldl (fun a c => a * 10 + digitVal c) 0

/-- Match a literal character sequence, returning the remainder. -/
def litMatch : List Char → List Char → Option (List Char)
  | [], l => some l
  | _ :: _, [] => none
  | p :: ps, c :: cs => if p == c then litMatch ps cs else none

/-- `re.search` with a leading `\b`: try `matchAt` at each position left to
right; `prev` is the character before the current position. -/
def scanB (matchAt : List Char → Option α) : Option Char → List Char → Option α
  | prev, [] =>
    match (if boundaryOK prev then matchAt [] else none) with
    | some r => some r
    | none => none
  | prev, c :: rest =>
    match (if boundaryOK prev then matchAt (c :: rest) else none) with
    | some r => some r
    | none => scanB matchAt (some c) rest

/-- `re.search` without a leading boundary. -/
def scanAny (matchAt : List Char → Option α) : List Char → Option α
  | [] => matchAt []
  | c :: rest =>
    match matchAt (c :: rest) with
    | some r => some r
    | none => scanAny matchAt rest

/-- substring test (Python `in`). -/
def hasSub : List Char → List Char → Bool
  | l, sub =>
    match litMatch sub l with
    | some _ => true
    | none =>
      match l with
      | [] => false
      | _ :: rest => hasSub rest sub

def containsStr (s sub : String) : Bool := hasSub s.data sub.data

/-- `\d{1,2}` immediately followed by the literal separator (consumed).
Both `re` alternatives (two digits, one digit) are tried in greedy order. -/
def digitsBeforeSep (sep : Char) : List Char → Option (List Char × List Char)
  | c1 :: c2 :: rest =>
    if c1.isDigit then
      if c2.isDigit then
        match rest with
        | c3 :: rest2 =>
          if c3 == sep then some ([c1, c2], rest2)
          else if c2 == sep then some ([c1], c3 :: rest2)
          else none
        | [] => if c2 == sep then some ([c1], []) else none
      else if c2 == sep then some ([c1], rest) else none
    else none
  | _ => none

/-- `\d{4}`. -/
def digits4 : List Char → Option (List Char × List Char)
  | a :: b :: c :: d :: rest =>
    if a.isDigit && b.isDigit && c.isDigit && d.isDigit then some ([a, b, c, d], rest)
    else none
  | _ => none

/-- `\d{1,2}` greedy (used where the continuation cannot start with a digit). -/
def digits12 : List Char → Option (List Char × List Char)
  | c1 :: c2 :: rest =>
    if c1.isDigit then
      if c2.isDigit then some ([c1, c2], rest) else some ([c1], c2 :: rest)
    else none
  | [c1] => if c1.isDigit then some ([c1], []) else none
  | [] => none

/-- `[A-Za-z]+` (maximal run; shorter runs end before a letter, so they can
never satisfy the literal-space continuation). -/
def lettersRun : List Char → Option (List Char × List Char)
  | c :: rest =>
    if c.isAlpha then
      some (c :: rest.takeWhile (fun x => x.isAlpha), rest.dropWhile (fun x => x.isAlpha))
    else none
  | [] => none

/-- `\s+` greedy (continuations below start with digits or letters). -/
def ws1 : List Char → Option (List Char)
  | c :: rest => if isSpaceChar c then some (rest.dropWhile isSpaceChar) else none
  | [] => none

/-- Pattern `\b(\d{1,2})<sep>(\d{1,2})<sep>(\d{4})\b` at the head of the
input (leading `\b` handled by the scanner); returns the matched text. -/
def matchSepDateAt (sep : Char) (l : List Char) : Option (List Char) :=
  match digitsBeforeSep sep l with
  | none => none
  | some (mo, r1) =>
    match digitsBeforeSep sep r1 with
    | none => none
    | some (da, r2) =>
      match digits4 r2 with
      | none => none
      | some (yr, r3) =>
        if bEnd r3 then some (mo ++ sep :: da ++ sep :: yr) else none

/-- Pattern `\b([A-Za-z]+ \d{1,2},? \d{4})\b` at the head of the input. -/
def matchMonthD4At (l : List Char) : Option (List Char) :=
  match lettersRun l with
  | none => none
  | some (ws, r1) =>
    match r1 with
    | ' ' :: r2 =>
      match digits12 r2 with
      | none => none
      | some (da, r3) =>
        let cs : List Char × List Char :=
          match r3 with
          | ',' :: r => ([','], r)
          | r => ([], r)
        match cs.2 with
        | ' ' :: r5 =>
          match digits4 r5 with
          | none => none
          | some (yr, r6) =>
            if bEnd r6 then some (ws ++ ' ' :: da ++ cs.1 ++ ' ' :: yr) else none
        | _ => none
    | _ => none

/-- The three explicit full-date patterns of `_extract_new_date`, tried in
source order over the raw message. -/
def searchExplicit (msg : String) : Option String :=
  match scanB (matchSepDateAt '/') none msg.data with
  | some g => some (String.mk g)
  | none =>
    match scanB (matchSepDateAt '-') none msg.data with
    | some g => some (String.mk g)
    | none =>
      match scanB matchMonthD4At none msg.data with
      | some g => some (String.mk g)
      | none => none

/-- The first explicit pattern `\b(\d{1,2}/\d{1,2}/\d{4})\b` alone, as a
string-level search; it is the first branch (and first match wins) of
`searchExplicit`. -/
def searchSlashDate (msg : String) : Option String :=
  (scanB (matchSepDateAt '/') none msg.data).map String.mk

/-- `_MONTH_MAP` keys in Python dict insertion order (the order of the
regex alternation built by `join`). -/
def monthAlts : List (String × Nat) :=
  [("january", 1), ("jan", 1), ("february", 2), ("feb", 2),
   ("march", 3), ("mar", 3), ("april", 4), ("apr", 4),
   ("may", 5), ("june", 6), ("jun", 6),
   ("july", 7), ("jul", 7), ("august", 8), ("aug", 8),
   ("september", 9), ("sep", 9), ("sept", 9),
   ("october", 10), ("oct", 10), ("november", 11), ("nov", 11),
   ("december", 12), ("dec", 12)]

/-- Optional ordinal suffix `(?:st|nd|rd|th)?`.  If a suffix matches, its
first character is a letter, so the no-suffix alternative would fail the
following `\b` anyway; consuming it greedily is faithful. -/
def dropOrdSuf (l : List Char) : List Char :=
  match litMatch ['s', 't'] l with
  | some r => r
  | none =>
    match litMatch ['n', 'd'] l with
    | some r => r
    | none =>
      match litMatch ['r', 'd'] l with
      | some r => r
      | none =>
        match litMatch ['t', 'h'] l with
        | some r => r
        | none => l

/-- Continuation `\s+(\d{1,2})(?:st|nd|rd|th)?\b` of the month-name pattern. -/
def monthDayTail (num : Nat) (r1 : List Char) : Option (Nat × Nat) :=
  match ws1 r1 with
  | none => none
  | some r2 =>
    match digits12 r2 with
    | none => none
    | some (ds, r3) => if bEnd (dropOrdSuf r3) then some (num, natOfDigits ds) else none

/-- Month-name alternation with its continuation; alternatives tried in
`re` order, later ones only after the whole continuation fails. -/
def tryMonthAlts : List (String × Nat) → List Char → Option (Nat × Nat)
  | [], _ => none
  | (name, num) :: rest, l =>
    match litMatch name.data l with
    | some r1 =>
      match monthDayTail num r1 with
      | some res => some res
      | none => tryMonthAlts rest l
    | none => tryMonthAlts rest l

/-- Pattern `\b(jan|january|...)\s+(\d{1,2})(?:st|nd|rd|th)?\b` at the head. -/
def matchMonthDayAt (l : List Char) : Option (Nat × Nat) := tryMonthAlts monthAlts l

/-- `\b` plus the negative lookahead `(?!/\d)` after the `M/D` day digits. -/
def mdTailOK : List Char → Bool
  | [] => true
  | c :: rest =>
    !isWordChar c &&
      !(c == '/' && (match rest with | d :: _ => d.isDigit | [] => false))

/-- Pattern `\b(\d{1,2})/(\d{1,2})\b(?!/\d)` at the head; the day digits
really can backtrack against the trailing tests. -/
def matchMDAt (l : List Char) : Option (Nat × Nat) :=
  match digitsBeforeSep '/' l with
  | none => none
  | some (mo, r1) =>
    match r1 with
    | c1 :: c2 :: rest =>
      if c1.isDigit then
        if c2.isDigit then
          if mdTailOK rest then some (natOfDigits mo, natOfDigits [c1, c2])
          else if mdTailOK (c2 :: rest) then some (natOfDigits mo, natOfDigits [c1])
          else none
        else if mdTailOK (c2 :: rest) then some (natOfDigits mo, natOfDigits [c1])
        else none
      else none
    | [c1] => if c1.isDigit && mdTailOK [] then some (natOfDigits mo, natOfDigits [c1]) else none
    | [] => none

/-- `(\d{1,2})(st|nd|rd|th)\b` (suffix required). -/
def dayCore (l : List Char) : Option Nat :=
  match digits12 l with
  | none => none
  | some (ds, r1) =>
    match
      (litMatch ['s', 't'] r1 <|> litMatch ['n', 'd'] r1 <|>
        litMatch ['r', 'd'] r1 <|> litMatch ['t', 'h'] r1) with
    | some r2 => if bEnd r2 then some (natOfDigits ds) else none
    | none => none

/-- Pattern `(?:the\s+)?(\d{1,2})(?:st|nd|rd|th)\b` at the head (no leading
`\b` in the source pattern). -/
def matchDayOnlyAt (l : List Char) : Option Nat :=
  match
    (match litMatch ['t', 'h', 'e'] l with
     | some r1 =>
       match ws1 r1 with
       | some r2 => dayCore r2
       | none => none
     | none => none) with
  | some d => some d
  | none => dayCore l

def weekdayNames : List (String × Nat) :=
  [("monday", 0), ("tuesday", 1), ("wednesday", 2), ("thursday", 3),
   ("friday", 4), ("saturday", 5), ("sunday", 6)]

def tryWeekdayAlts : List (String × Nat) → List Char → Option Nat
  | [], _ => none
  | (name, i) :: rest, l =>
    match litMatch name.data l with
    | some _ => some i
    | none => tryWeekdayAlts rest l

/-- Pattern `next\s+(monday|...|sunday)` at the head (no boundaries). -/
def matchNextWdAt (l : List Char) : Option Nat :=
  match litMatch ['n', 'e', 'x', 't'] l with
  | some r1 =>
    match ws1 r1 with
    | some r2 => tryWeekdayAlts weekdayNames r2
    | none => none
  | none => none

def searchMonthDay (msg : String) : Option (Nat × Nat) := scanB matchMonthDayAt none msg.data

def searchMD (msg : String) : Option (Nat × Nat) := scanB matchMDAt none msg.data

def searchDayOnly (msg : String) : Option Nat := scanAny matchDayOnlyAt msg.data

def searchNextWd (msg : String) : Option Nat := scanAny matchNextWdAt msg.data

/-! ## String helpers (ASCII models of `str.lower`, `str.upper`, `str.strip`) -/

def toLowerStr (s : String) : String := String.mk (s.data.map Char.toLower)

def toUpperStr (s : String) : String := String.mk (s.data.map Char.toUpper)

def pyStrip (s : String) : String :=
  String.mk (((s.data.dropWhile isSpaceChar).reverse.dropWhile isSpaceChar).reverse)

/-! ## Date resolution (`ShippingAgent._extract_new_date` and helpers) -/

/-- `datetime.now()` restricted to what the embedded code observes: the
current date and the minute of day (`0 ≤ minute < 1440`); sub-day time
matters only for the `timedelta` floor in the sooner/earlier branch. -/
structure DateTime where
  date : SDate
  minute : Nat
deriving DecidableEq, Repr

/-- Output format `f"{target.month}/{target.day}/{target.year}"`. -/
def fmtDate (d : SDate) : String :=
  toString d.month ++ "/" ++ toString d.day ++ "/" ++ toString d.year

/-- The largest `d ≤ day` with `datetime(y, m, d)` valid — the source's
`for d in range(day, 0, -1): try: datetime(year, month, d) ...` loop
(the direct `datetime(year, month, day)` attempt is its first iteration). -/
def firstValidDesc (y m : Nat) : Nat → Option Nat
  | 0 => none
  | d + 1 => if ValidDate ⟨y, m, d + 1⟩ then some (d + 1) else firstValidDesc y m d

/-- `ShippingAgent._next_future_date`. -/
def nextFutureDate (month day : Nat) (today : SDate) : SDate :=
  match firstValidDesc today.year month day with
  | none => addDays today 1
  | some d1 =>
    let c1 : SDate := ⟨today.year, month, d1⟩
    if toOrd c1 ≤ toOrd today then
      match firstValidDesc (today.year + 1) month day with
      | some d2 => ⟨today.year + 1, month, d2⟩
      | none => c1
    else c1

/-- The day-only branch (source lines 190-215): bounds check, roll to next
month when the day has already passed, skip one further month when the day
is invalid there, fall through (`none`) otherwise. -/
def dayOnlyResolve (day : Nat) (today : SDate) : Option SDate :=
  if 1 ≤ day ∧ day ≤ 31 then
    let my : Nat × Nat :=
      if day ≤ today.day then
        (if today.month + 1 > 12 then (1, today.year + 1) else (today.month + 1, today.year))
      else (today.month, today.year)
    if ValidDate ⟨my.2, my.1, day⟩ then some ⟨my.2, my.1, day⟩
    else
      let my2 : Nat × Nat := if my.1 + 1 > 12 then (1, my.2 + 1) else (my.1 + 1, my.2)
      if ValidDate ⟨my2.2, my2.1, day⟩ then some ⟨my2.2, my2.1, day⟩ else none
  else none

/-- Python `int()` on a field of the stored delivery date: optional
surrounding whitespace, optional sign, decimal digits. -/
def pyInt (s : String) : Option Int :=
  let t := (pyStrip s).data
  let core : List Char → Option Nat := fun l =>
    if l ≠ [] ∧ l.all Char.isDigit then some (natOfDigits l) else none
  match t with
  | '-' :: rest => (core rest).map (fun n => -(n : Int))
  | '+' :: rest => (core rest).map (fun n => (n : Int))
  | l => (core l).map (fun n => (n : Int))

/-- Python `str.split('/')` (single-character separator). -/
def splitSlash : List Char → List (List Char)
  | [] => [[]]
  | c :: rest =>
    if c == '/' then [] :: splitSlash rest
    else
      match splitSlash rest with
      | h :: t => (c :: h) :: t
      | [] => [[c]]

/-- The `current_delivery_date.split('/')` + `datetime(...)` parse of the
sooner/earlier branch; `none` models `ValueError`/`IndexError`. -/
def parseDelivery (s : String) : Option SDate :=
  match (splitSlash s.data).map String.mk with
  | p0 :: p1 :: p2 :: _ =>
    match pyInt p0, pyInt p1, pyInt p2 with
    | some mo, some da, some yr =>
      if 1 ≤ yr ∧ 1 ≤ mo ∧ 1 ≤ da then
        if ValidDate ⟨yr.toNat, mo.toNat, da.toNat⟩ then some ⟨yr.toNat, mo.toNat, da.toNat⟩
        else none
      else none
    | _, _, _ => none
  | _ => none

/-- Step 4 of `_extract_new_date` (relative expressions), returning the
target date.  `msg` is the lowercased message; `r` is the value drawn by
`random.randint` in the branch that uses it. -/
def relativeTarget (msg : String) (now : DateTime) (deliv : Option String) (r : Nat) :
    Option SDate :=
  let wd := weekdayOf now.date
  if containsStr msg "tomorrow" then some (addDays now.date 1)
  else if containsStr msg "next weekend" then
    let dts := (12 - wd) % 7
    let dts := if dts = 0 then 7 else dts
    some (addDays now.date (dts + 7))
  else if containsStr msg "weekend" then
    let dts := (12 - wd) % 7
    let dts := if dts = 0 ∧ wd ≠ 5 then 6 else dts
    some (addDays now.date dts)
  else if containsStr msg "next week" then
    let dtm := (7 - wd) % 7
    let dtm := if dtm = 0 then 7 else dtm
    some (addDays now.date (dtm + r))
  else
    match searchNextWd msg with
    | some target_wd =>
      let da := (target_wd + 7 - wd) % 7
      let da := if da = 0 then 7 else da
      some (addDays now.date da)
    | none =>
      if containsStr msg "sooner" || containsStr msg "earlier" then
        match deliv with
        | some ds =>
          match parseDelivery ds with
          | some dd =>
            if toOrd dd * 1440 > (toOrd now.date + 1) * 1440 + now.minute then
              let delta := (toOrd dd * 1440 - (toOrd now.date + 1) * 1440 - now.minute) / 1440
              some (addDays now.date (1 + (if delta > 1 then r else 0)))
            else some (addDays now.date 1)
          | none => some (addDays now.date 1)
        | none => some (addDays now.date 1)
      else none

/-- `ShippingAgent._extract_new_date`.  `now` models `datetime.now()`,
`deliv` the `current_delivery_date` argument, `r` the `random.randint`
draw of whichever random branch runs. -/
def extract_new_date (msg : String) (now : DateTime) (deliv : Option String) (r : Nat) :
    Option String :=
  match searchExplicit msg with
  | some s => some s
  | none =>
    let m := toLowerStr msg
    match searchMonthDay m with
    | some (mo, da) => some (fmtDate (nextFutureDate mo da now.date))
    | none =>
      let afterMD : Option String :=
        match searchDayOnly m with
        | some da =>
          match dayOnlyResolve da now.date with
          | some t => some (fmtDate t)
          | none => (relativeTarget m now deliv r).map fmtDate
        | none => (relativeTarget m now deliv r).map fmtDate
      match searchMD m with
      | some (mo, da) =>
        if 1 ≤ mo ∧ mo ≤ 12 ∧ 1 ≤ da ∧ da ≤ 31 then
          some (fmtDate (nextFutureDate mo da now.date))
        else afterMD
      | none => afterMD

/-- A day-only message `[the] N<suffix>` as described by the spec. -/
def buildDayMsg (useThe : Bool) (n : Nat) (suf : String) : String :=
  (if useThe then "the " else "") ++ Nat.repr n ++ suf

/-- Boolean check that on the day-only message the explicit, month-name
and `M/D` patterns all miss and the day-only pattern extracts `n`. -/
def dayMsgCheck (n : Nat) : Bool :=
  ["st", "nd", "rd", "th"].all fun suf =>
    [true, false].all fun b =>
      let m := buildDayMsg b n suf
      (searchExplicit m).isNone && (searchMonthDay (toLowerStr m)).isNone &&
        (searchMD (toLowerStr m)).isNone && (searchDayOnly (toLowerStr m) == some n)

/-! ## Confirmation / cancellation keyword checks -/

/-- `ShippingAgent._is_confirmation`. -/
def is_confirmation (msg : String) : Bool :=
  let ml := pyStrip (toLowerStr msg)
  ["yes", "confirm", "proceed", "go ahead", "correct"].any
    (fun k => k == ml || containsStr ml k)

/-- `ShippingAgent._is_cancellation`. -/
def is_cancellation (msg : String) : Bool :=
  let ml := pyStrip (toLowerStr msg)
  ["no", "cancel", "nevermind", "never mind", "don't", "dont"].any
    (fun k => k == ml || containsStr ml k)

/-! ## Order records and repository (`app/repositories/order_repository.py`) -/

/-- The order fields the agent and repository manipulate (the verified-order
snapshot stored per context is a dict of exactly these fields). -/
structure OrderRec where
  order_id : String
  first_name : String
  last_name : String
  email : String
  street : String
  city : String
  state : String
  zipcode : String
  delivery_date : String
deriving DecidableEq, Repr

/-- The SQL predicate `UPPER(order_id) = upper(strip(input))` and
`LOWER(email) = lower(strip(input))` of both `find_by_order_id_and_email`
and `update_order` (SQLite's UPPER/LOWER fold ASCII, like the model). -/
def keyMatches (r : OrderRec) (oid em : String) : Bool :=
  toUpperStr r.order_id == pyStrip (toUpperStr oid) &&
    toLowerStr r.email == pyStrip (toLowerStr em)

/-- `OrderRepository.find_by_order_id_and_email`: first row matching the
case-insensitive key, `none` otherwise. -/
def find_by_order_id_and_email (db : List OrderRec) (oid em : String) : Option OrderRec :=
  db.find? (fun r => keyMatches r oid em)

/-- `OrderUpdate` (pydantic model of the partial update), fields in
declaration order. -/
structure OrderUpdate where
  delivery_date : Option String := none
  street : Option String := none
  city : Option String := none
  state : Option String := none
  zipcode : Option String := none
deriving DecidableEq, Repr

/-- `OrderUpdate.to_dict`: the present fields, in field order. -/
def OrderUpdate.toFields (u : OrderUpdate) : List (String × String) :=
  (match u.delivery_date with | some v => [("delivery_date", v)] | none => []) ++
  (match u.street with | some v => [("street", v)] | none => []) ++
  (match u.city with | some v => [("city", v)] | none => []) ++
  (match u.state with | some v => [("state", v)] | none => []) ++
  (match u.zipcode with | some v => [("zipcode", v)] | none => [])

/-- Effect of the SQL `SET` clause on one matching row: present fields are
overwritten, absent fields untouched. -/
def applyUpdate (u : OrderUpdate) (r : OrderRec) : OrderRec :=
  { r with
    delivery_date := u.delivery_date.getD r.delivery_date
    street := u.street.getD r.street
    city := u.city.getD r.city
    state := u.state.getD r.state
    zipcode := u.zipcode.getD r.zipcode }

/-- `OrderRepository.update_order`: empty updates are rejected before any
write; otherwise one `UPDATE` scoped by the case-insensitive key, with
success iff `rowcount > 0`.  Returns (new table, success, message). -/
def update_order (db : List OrderRec) (oid em : String) (u : OrderUpdate) :
    List OrderRec × Bool × String :=
  if u.toFields.isEmpty then (db, false, "No fields to update")
  else
    let matched := db.any (fun r => keyMatches r oid em)
    (db.map (fun r => if keyMatches r oid em then applyUpdate u r else r),
     matched,
     if matched then "Successfully updated order " ++ oid
     else "Order " ++ oid ++ " not found for email " ++ em)

/-! ## Conversation state machine (`ShippingAgent.process_message`)

The per-context dict `_session_state[context_id]` becomes `ConvState`;
the collaborators (`_find_order` lookup, the boolean result of each
`_update_order` call) are oracle arguments, and the order-id/email/address
extraction results are passed in as arguments (their regexes live in
`_extract_order_info` / `_extract_new_address`).  Store writes are
recorded as a list of the update calls issued. -/

structure Address where
  street : String
  city : String
  state : String
  zipcode : String
deriving DecidableEq, Repr

structure ConvState where
  verified_order : Option OrderRec
  pending_date_update : Option String
  pending_address_update : Option Address
deriving DecidableEq, Repr

inductive StoreWrite where
  | dateW (order_id email d : String)
  | addrW (order_id email : String) (a : Address)
deriving DecidableEq, Repr

/-- `verified_order.update(address_to_update)` on apply-address success. -/
def applyAddr (a : Address) (o : OrderRec) : OrderRec :=
  { o with street := a.street, city := a.city, state := a.state, zipcode := a.zipcode }

/-- The date-update section (source lines 397-429), entered with the
pending-date slot as left by the cancellation check.  Returns the new
pending slot, the (possibly updated) verified snapshot and the update
calls issued. -/
def dateSection (conf : Bool) (new_date : Option String) (pd0 : Option String)
    (vo : OrderRec) (dateOk : Bool) : Option String × OrderRec × List StoreWrite :=
  match new_date with
  | some d => (some d, vo, [])
  | none =>
    if conf then
      match pd0 with
      | some p =>
        if dateOk then (none, { vo with delivery_date := p },
          [StoreWrite.dateW vo.order_id vo.email p])
        else (some p, vo, [StoreWrite.dateW vo.order_id vo.email p])
      | none => (none, vo, [])
    else (pd0, vo, [])

/-- The address-update section (source lines 431-470), run after the date
section on the possibly-updated snapshot. -/
def addrSection (conf : Bool) (new_address : Option Address) (pa0 : Option Address)
    (vo : OrderRec) (addrOk : Bool) : Option Address × OrderRec × List StoreWrite :=
  match new_address with
  | some a => (some a, vo, [])
  | none =>
    if conf then
      match pa0 with
      | some a =>
        if addrOk then (none, applyAddr a vo,
          [StoreWrite.addrW vo.order_id vo.email a])
        else (some a, vo, [StoreWrite.addrW vo.order_id vo.email a])
      | none => (none, vo, [])
    else (pa0, vo, [])

/-- The update machinery (source lines 368-470) for one context's state. -/
def updatePhase (msg : String) (now : DateTime) (r : Nat) (new_address : Option Address)
    (dateOk addrOk : Bool) (state : ConvState) : ConvState × List StoreWrite :=
  match state.verified_order with
  | none => (state, [])
  | some vo =>
    let new_date := extract_new_date msg now (some vo.delivery_date) r
    let conf := is_confirmation msg
    let canc := is_cancellation msg
    let cancelled := canc &&
      (state.pending_date_update.isSome || state.pending_address_update.isSome)
    let pd0 := if cancelled then none else state.pending_date_update
    let pa0 := if cancelled then none else state.pending_address_update
    let ds := dateSection conf new_date pd0 vo dateOk
    let as0 := addrSection conf new_address pa0 ds.2.1 addrOk
    (⟨some as0.2.1, ds.1, as0.1⟩, ds.2.2 ++ as0.2.2)

/-- `ShippingAgent.process_message` on the LLM-enabled path, restricted to
its effect on one context's conversation state and on the order store.
`oidE`/`emE` are the `_extract_order_info` results, `new_address` the
`_extract_new_address` result, `findRes` the `_find_order` oracle,
`dateOk`/`addrOk` the boolean results of the `_update_order` calls,
`hasCtx` whether a context id was supplied, and `st0` the state stored
for that context (`none`: no entry).  Returns the new state and the
update calls issued.  (The LLM call and the fallback reply path never
touch the session state beyond what is modelled here.) -/
def process_message (msg : String) (now : DateTime) (r : Nat)
    (oidE emE : Option String) (new_address : Option Address)
    (findRes : Option OrderRec) (dateOk addrOk : Bool)
    (hasCtx : Bool) (st0 : Option ConvState) : Option ConvState × List StoreWrite :=
  if oidE.isSome && emE.isSome then
    match findRes with
    | some o => ((if hasCtx then some ⟨some o, none, none⟩ else st0), [])
    | none =>
      match hasCtx, st0 with
      | true, some state =>
        let u := updatePhase msg now r new_address dateOk addrOk state
        (some u.1, u.2)
      | _, _ => (st0, [])
  else
    match hasCtx, st0 with
    | true, some state =>
      let u := updatePhase msg now r new_address dateOk addrOk state
      (some u.1, u.2)
    | _, _ => (st0, [])

/-! ## Task lifecycle (`app/agents/handler.py`) -/

inductive TaskState where
  | working
  | completed
  | failed
  | canceled
  | rejected
deriving DecidableEq, Repr

/-- The terminal-state test of `cancel_task`
(`state in ("completed", "failed", "canceled", "rejected")`). -/
def TaskState.isTerminal : TaskState → Bool
  | .working => false
  | _ => true

/-- A task record; message transcripts are kept as the list of their text
parts, timestamps as abstract instants. -/
structure Task where
  id : String
  contextId : String
  state : TaskState
  createdAt : Nat
  updatedAt : Nat
  messages : List String
deriving DecidableEq, Repr

/-- The task record `send_message` creates before processing. -/
def mkTask (id ctx msg : String) (now : Nat) : Task :=
  ⟨id, ctx, .working, now, now, [msg]⟩

/-- The end of `send_message`: `completed` with the agent reply appended
on success, `failed` on an exception. -/
def finalizeTask (t : Task) (agentOk : Bool) (resp : String) (now : Nat) : Task :=
  if agentOk then
    { t with state := .completed, updatedAt := now, messages := t.messages ++ [resp] }
  else { t with state := .failed, updatedAt := now }

/-- `A2AHandler.cancel_task` on a stored task record. -/
def cancelTask (t : Task) (now : Nat) : Task :=
  if t.state.isTerminal then t else { t with state := .canceled, updatedAt := now }

/-! ## Concrete fixtures used by witnesses -/

/-- A sample stored order row (the one used in the spec's scenarios). -/
def cRow : OrderRec :=
  ⟨"3DV7KU4PK54", "Cale", "Worshall", "cworshall0@flavors.me",
    "1 Main St", "Austin", "Texas", "73301", "3/20/2026"⟩

/-- A street-only partial update. -/
def uStreet : OrderUpdate := { street := some "9 Oak Ave" }

/-- `cRow` after the street-only partial update. -/
def cRowStreetUpd : OrderRec := { cRow with street := "9 Oak Ave" }

/-- A sample extracted address. -/
def cAddr : Address := ⟨"9 Oak Ave", "Denver", "Colorado", "80014"⟩

/-! ## Claim theorems -/

/-- C9: Task records are monotonic.  A task created by `send_message`
starts in `working`; the finalization step moves it into exactly one
terminal state (`completed` or `failed`); `cancel_task` on a task already
in a terminal state is a no-op returning the record unchanged (state and
timestamps untouched); `cancel_task` on a non-terminal task moves it to
the terminal state `canceled`.  Hence a record enters a terminal state at
most once. -/
theorem C9_task_lifecycle :
    (∀ id ctx msg now, (mkTask id ctx msg now).state = TaskState.working) ∧
    (∀ t ok resp now, t.state = TaskState.working →
      (finalizeTask t ok resp now).state.isTerminal = true ∧
        ((finalizeTask t ok resp now).state = TaskState.completed ∨
          (finalizeTask t ok resp now).state = TaskState.failed)) ∧
    (∀ t now, t.state.isTerminal = true → cancelTask t now = t) ∧
    (∀ t now, t.state.isTerminal = false →
      (cancelTask t now).state = TaskState.canceled ∧
      (cancelTask t now).state.isTerminal = true) := by
  refine ⟨fun _ _ _ _ => rfl, ?_, ?_, ?_⟩
  · intro t ok resp now _h
    unfold finalizeTask
    cases ok <;> simp [TaskState.isTerminal]
  · intro t now h
    unfold cancelTask
    rw [if_pos h]
  · intro t now h
    unfold cancelTask
    rw [if_neg (by simp [h])]
    exact ⟨rfl, rfl⟩

/-- C9 witness: a freshly created task is `working`; cancelling a
completed task returns it unchanged; cancelling a working task cancels
it. -/
theorem C9_task_lifecycle_witness :
    (mkTask "t1" "c1" "hello" 0).state = TaskState.working ∧
    cancelTask ⟨"t1", "c1", TaskState.completed, 0, 1, []⟩ 5 =
      ⟨"t1", "c1", TaskState.completed, 0, 1, []⟩ ∧
    (cancelTask (mkTask "t1" "c1" "hello" 0) 5).state = TaskState.canceled :=
  ⟨C9_task_lifecycle.1 "t1" "c1" "hello" 0,
   C9_task_lifecycle.2.2.1 ⟨"t1", "c1", TaskState.completed, 0, 1, []⟩ 5 rfl,
   (C9_task_lifecycle.2.2.2 (mkTask "t1" "c1" "hello" 0) 5 rfl).1⟩

/-- C7: `find` is case-insensitive and whitespace-tolerant: any query
whose trimmed, case-folded order id and email match a stored record's
folded key returns that record (unique keys assumed, as `fetchone`
returns the first match); a query matching no stored record after folding
and trimming returns `none`. -/
theorem C7_find_case_insensitive :
    (∀ (db : List OrderRec) (r : OrderRec) (oid em : String), r ∈ db →
      (∀ r' ∈ db, keyMatches r' oid em = true → r' = r) →
      keyMatches r oid em = true →
      find_by_order_id_and_email db oid em = some r) ∧
    (∀ (db : List OrderRec) (oid em : String),
      (∀ r ∈ db, keyMatches r oid em = false) →
      find_by_order_id_and_email db oid em = none) := by
  constructor
  · intro db r oid em hmem huniq hkey
    induction db with
    | nil => cases hmem
    | cons a tl ih =>
      by_cases ha : keyMatches a oid em = true
      · have har : a = r := huniq a (List.mem_cons_self a tl) ha
        subst har
        exact List.find?_cons_of_pos tl ha
      · have ha' : ¬ keyMatches a oid em = true := ha
        have hmem' : r ∈ tl := by
          rcases List.mem_cons.mp hmem with h | h
          · exact absurd (h ▸ hkey) ha'
          · exact h
        have step : find_by_order_id_and_email (a :: tl) oid em =
            find_by_order_id_and_email tl oid em :=
          List.find?_cons_of_neg tl ha'
        rw [step]
        exact ih hmem' (fun r' hr' => huniq r' (List.mem_cons_of_mem a hr'))
  · intro db oid em hall
    unfold find_by_order_id_and_email
    rw [List.find?_eq_none]
    intro x hx
    simp [hall x hx]

/-- C7 witness: the stored record is found under shifted casing and
surrounding whitespace of both keys, and a different order id with the
right email is not found. -/
theorem C7_find_case_insensitive_witness :
    find_by_order_id_and_email [cRow] "  3dv7Ku4pk54 " " CWorshall0@Flavors.ME  " =
      some cRow ∧
    find_by_order_id_and_email [cRow] "9XV7KU4PK54" "cworshall0@flavors.me" = none :=
  ⟨C7_find_case_insensitive.1 [cRow] cRow _ _ (List.mem_singleton.mpr rfl)
      (by decide) (by decide),
   C7_find_case_insensitive.2 [cRow] _ _ (by decide)⟩

/-- C8: an update with zero present fields is rejected before any store
write (table unchanged, failure returned), and every row of the table
after any update keeps its order id and email, and keeps every field that
is absent from the partial update. -/
theorem C8_update_validation :
    (∀ (db : List OrderRec) (oid em : String) (u : OrderUpdate),
      u.toFields = [] → update_order db oid em u = (db, false, "No fields to update")) ∧
    (∀ (db : List OrderRec) (oid em : String) (u : OrderUpdate),
      ∀ r' ∈ (update_order db oid em u).1, ∃ r, r ∈ db ∧
        r'.order_id = r.order_id ∧ r'.email = r.email ∧
        (u.delivery_date = none → r'.delivery_date = r.delivery_date) ∧
        (u.street = none → r'.street = r.street) ∧
        (u.city = none → r'.city = r.city) ∧
        (u.state = none → r'.state = r.state) ∧
        (u.zipcode = none → r'.zipcode = r.zipcode)) := by
  constructor
  · intro db oid em u h
    unfold update_order
    rw [if_pos (by simp [h])]
  · intro db oid em u r' hmem
    unfold update_order at hmem
    by_cases hempty : u.toFields.isEmpty = true
    · rw [if_pos hempty] at hmem
      exact ⟨r', hmem, rfl, rfl, fun _ => rfl, fun _ => rfl, fun _ => rfl,
        fun _ => rfl, fun _ => rfl⟩
    · rw [if_neg hempty] at hmem
      obtain ⟨r, hr, hr'⟩ := List.mem_map.mp hmem
      refine ⟨r, hr, ?_⟩
      subst hr'
      by_cases hk : keyMatches r oid em = true
      · rw [if_pos hk]
        refine ⟨rfl, rfl, ?_, ?_, ?_, ?_, ?_⟩ <;>
          (intro hnone; simp [applyUpdate, hnone])
      · rw [if_neg hk]
        exact ⟨rfl, rfl, fun _ => rfl, fun _ => rfl, fun _ => rfl,
          fun _ => rfl, fun _ => rfl⟩

/-- Any update call issued by the date section is a confirmation applying
exactly the pending value it was entered with. -/
theorem dateSection_mem {conf : Bool} {nd pd0 : Option String} {vo : OrderRec}
    {ok : Bool} {w : StoreWrite} (h : w ∈ (dateSection conf nd pd0 vo ok).2.2) :
    conf = true ∧ nd = none ∧
      ∃ p, pd0 = some p ∧ w = StoreWrite.dateW vo.order_id vo.email p := by
  unfold dateSection at h
  cases nd with
  | some d => simp at h
  | none =>
    cases conf with
    | false => simp at h
    | true =>
      cases pd0 with
      | none => simp at h
      | some p =>
        cases ok with
        | true =>
          have h' : w = StoreWrite.dateW vo.order_id vo.email p := by simpa using h
          exact ⟨rfl, rfl, p, rfl, h'⟩
        | false =>
          have h' : w = StoreWrite.dateW vo.order_id vo.email p := by simpa using h
          exact ⟨rfl, rfl, p, rfl, h'⟩

/-- Analogous fact for the address section. -/
theorem addrSection_mem {conf : Bool} {na pa0 : Option Address} {vo : OrderRec}
    {ok : Bool} {w : StoreWrite} (h : w ∈ (addrSection conf na pa0 vo ok).2.2) :
    conf = true ∧ na = none ∧
      ∃ a, pa0 = some a ∧ w = StoreWrite.addrW vo.order_id vo.email a := by
  unfold addrSection at h
  cases na with
  | some a => simp at h
  | none =>
    cases conf with
    | false => simp at h
    | true =>
      cases pa0 with
      | none => simp at h
      | some a =>
        cases ok with
        | true =>
          have h' : w = StoreWrite.addrW vo.order_id vo.email a := by simpa using h
          exact ⟨rfl, rfl, a, rfl, h'⟩
        | false =>
          have h' : w = StoreWrite.addrW vo.order_id vo.email a := by simpa using h
          exact ⟨rfl, rfl, a, rfl, h'⟩

/-- The date section never changes the snapshot's order id or email. -/
theorem dateSection_key {conf : Bool} {nd pd0 : Option String} {vo : OrderRec} {ok : Bool} :
    (dateSection conf nd pd0 vo ok).2.1.order_id = vo.order_id ∧
      (dateSection conf nd pd0 vo ok).2.1.email = vo.email := by
  unfold dateSection
  cases nd with
  | some d => exact ⟨rfl, rfl⟩
  | none =>
    cases conf with
    | false => exact ⟨rfl, rfl⟩
    | true =>
      cases pd0 with
      | none => exact ⟨rfl, rfl⟩
      | some p => cases ok with
        | true => exact ⟨rfl, rfl⟩
        | false => exact ⟨rfl, rfl⟩

/-- The pending-date slot left by the date section, as a function of the
staged value, the confirmation signal, the update result and the incoming
slot: a staged value fills the slot, a successful confirmed apply clears
it, and otherwise the incoming slot is kept. -/
theorem dateSection_pd (conf : Bool) (nd pd0 : Option String) (vo : OrderRec)
    (ok : Bool) :
    (dateSection conf nd pd0 vo ok).1 =
      (match nd with
       | some d => some d
       | none => if conf = true ∧ ok = true then none else pd0) := by
  cases nd <;> cases conf <;> cases ok <;> cases pd0 <;> rfl

/-- The pending-address slot left by the address section, as a function of
the staged value, the confirmation signal, the update result and the
incoming slot. -/
theorem addrSection_pa (conf : Bool) (na pa0 : Option Address) (vo : OrderRec)
    (ok : Bool) :
    (addrSection conf na pa0 vo ok).1 =
      (match na with
       | some a => some a
       | none => if conf = true ∧ ok = true then none else pa0) := by
  cases na <;> cases conf <;> cases ok <;> cases pa0 <;> rfl

/-- The date section touches no snapshot field except `delivery_date`, and
changes that one only by applying the incoming pending date on a
successful confirmed update. -/
theorem dateSection_vo_fields (conf : Bool) (nd pd0 : Option String) (vo : OrderRec)
    (ok : Bool) :
    (dateSection conf nd pd0 vo ok).2.1.order_id = vo.order_id ∧
    (dateSection conf nd pd0 vo ok).2.1.email = vo.email ∧
    (dateSection conf nd pd0 vo ok).2.1.first_name = vo.first_name ∧
    (dateSection conf nd pd0 vo ok).2.1.last_name = vo.last_name ∧
    (dateSection conf nd pd0 vo ok).2.1.street = vo.street ∧
    (dateSection conf nd pd0 vo ok).2.1.city = vo.city ∧
    (dateSection conf nd pd0 vo ok).2.1.state = vo.state ∧
    (dateSection conf nd pd0 vo ok).2.1.zipcode = vo.zipcode ∧
    ((dateSection conf nd pd0 vo ok).2.1.delivery_date = vo.delivery_date ∨
      (nd = none ∧ conf = true ∧ ok = true ∧
        pd0 = some (dateSection conf nd pd0 vo ok).2.1.delivery_date)) := by
  cases nd <;> cases conf <;> cases ok <;> cases pd0 <;>
    first
      | exact ⟨rfl, rfl, rfl, rfl, rfl, rfl, rfl, rfl, Or.inl rfl⟩
      | exact ⟨rfl, rfl, rfl, rfl, rfl, rfl, rfl, rfl, Or.inr ⟨rfl, rfl, rfl, rfl⟩⟩

/-- The address section touches no snapshot field except the four address
fields, and changes those only by applying the incoming pending address on
a successful confirmed update. -/
theorem addrSection_vo_fields (conf : Bool) (na pa0 : Option Address) (vo : OrderRec)
    (ok : Bool) :
    (addrSection conf na pa0 vo ok).2.1.order_id = vo.order_id ∧
    (addrSection conf na pa0 vo ok).2.1.email = vo.email ∧
    (addrSection conf na pa0 vo ok).2.1.first_name = vo.first_name ∧
    (addrSection conf na pa0 vo ok).2.1.last_name = vo.last_name ∧
    (addrSection conf na pa0 vo ok).2.1.delivery_date = vo.delivery_date ∧
    (((addrSection conf na pa0 vo ok).2.1.street = vo.street ∧
      (addrSection conf na pa0 vo ok).2.1.city = vo.city ∧
      (addrSection conf na pa0 vo ok).2.1.state = vo.state ∧
      (addrSection conf na pa0 vo ok).2.1.zipcode = vo.zipcode) ∨
     (na = none ∧ conf = true ∧ ok = true ∧
      pa0 = some ⟨(addrSection conf na pa0 vo ok).2.1.street,
        (addrSection conf na pa0 vo ok).2.1.city,
        (addrSection conf na pa0 vo ok).2.1.state,
        (addrSection conf na pa0 vo ok).2.1.zipcode⟩)) := by
  cases na <;> cases conf <;> cases ok <;> cases pa0 <;>
    first
      | exact ⟨rfl, rfl, rfl, rfl, rfl, Or.inl ⟨rfl, rfl, rfl, rfl⟩⟩
      | exact ⟨rfl, rfl, rfl, rfl, rfl, Or.inr ⟨rfl, rfl, rfl, rfl⟩⟩

/-- Every update call issued by one turn of the update machinery is an
explicit confirmation of a value that was already pending when the turn
began. -/
theorem updatePhase_mem {msg : String} {now : DateTime} {r : Nat}
    {new_address : Option Address} {dateOk addrOk : Bool} {state : ConvState}
    {w : StoreWrite}
    (h : w ∈ (updatePhase msg now r new_address dateOk addrOk state).2) :
    is_confirmation msg = true ∧
      ∃ vo, state.verified_order = some vo ∧
        ((∃ p, w = StoreWrite.dateW vo.order_id vo.email p ∧
            state.pending_date_update = some p ∧
            extract_new_date msg now (some vo.delivery_date) r = none) ∨
         (∃ a, w = StoreWrite.addrW vo.order_id vo.email a ∧
            state.pending_address_update = some a ∧ new_address = none)) := by
  unfold updatePhase at h
  cases hvo : state.verified_order with
  | none => rw [hvo] at h; simp at h
  | some vo =>
    rw [hvo] at h
    simp only [List.mem_append] at h
    rcases h with h | h
    · obtain ⟨hconf, hnd, p, hp, hw⟩ := dateSection_mem h
      refine ⟨hconf, vo, rfl, Or.inl ⟨p, hw, ?_, hnd⟩⟩
      by_cases hc : (is_cancellation msg &&
          (state.pending_date_update.isSome || state.pending_address_update.isSome)) = true
      · rw [if_pos hc] at hp; cases hp
      · rwa [if_neg hc] at hp
    · obtain ⟨hconf, hna, a, ha, hw⟩ := addrSection_mem h
      obtain ⟨hkey1, hkey2⟩ := @dateSection_key
        (is_confirmation msg) (extract_new_date msg now (some vo.delivery_date) r)
        (if is_cancellation msg &&
            (state.pending_date_update.isSome || state.pending_address_update.isSome)
          then none else state.pending_date_update) vo dateOk
      refine ⟨hconf, vo, rfl, Or.inr ⟨a, ?_, ?_, hna⟩⟩
      · rw [hw, hkey1, hkey2]
      · by_cases hc : (is_cancellation msg &&
            (state.pending_date_update.isSome || state.pending_address_update.isSome)) = true
        · rw [if_pos hc] at ha; cases ha
        · rwa [if_neg hc] at ha

/-- C1: the order store is only ever written on an explicit confirmation
turn.  Every update call issued while processing a message carries the
confirmation signal, applies exactly a value that was pending in the
context's state before the turn (hence staged on an earlier turn, under
the verified order's own id and email), and occurs on a turn in which no
new value of that kind was extracted — so a message that merely stages a
new date or address never triggers the corresponding store update in the
same turn. -/
theorem C1_store_write_only_on_confirmation
    (msg : String) (now : DateTime) (r : Nat) (oidE emE : Option String)
    (new_address : Option Address) (findRes : Option OrderRec) (dateOk addrOk : Bool)
    (hasCtx : Bool) (st0 : Option ConvState) :
    ∀ w ∈ (process_message msg now r oidE emE new_address findRes dateOk addrOk
        hasCtx st0).2,
      is_confirmation msg = true ∧
      ∃ st vo, st0 = some st ∧ st.verified_order = some vo ∧
        ((∃ p, w = StoreWrite.dateW vo.order_id vo.email p ∧
            st.pending_date_update = some p ∧
            extract_new_date msg now (some vo.delivery_date) r = none) ∨
         (∃ a, w = StoreWrite.addrW vo.order_id vo.email a ∧
            st.pending_address_update = some a ∧ new_address = none)) := by
  intro w hw
  unfold process_message at hw
  by_cases hoe : (oidE.isSome && emE.isSome) = true
  · rw [if_pos hoe] at hw
    cases findRes with
    | some o => simp at hw
    | none =>
      cases hasCtx with
      | false => simp at hw
      | true =>
        cases st0 with
        | none => simp at hw
        | some state =>
          obtain ⟨hconf, vo, hvo, hrest⟩ := updatePhase_mem hw
          exact ⟨hconf, state, vo, rfl, hvo, hrest⟩
  · rw [if_neg hoe] at hw
    cases hasCtx with
    | false => simp at hw
    | true =>
      cases st0 with
      | none => simp at hw
      | some state =>
        obtain ⟨hconf, vo, hvo, hrest⟩ := updatePhase_mem hw
        exact ⟨hconf, state, vo, rfl, hvo, hrest⟩

/-- A turn with no staged value, no confirmation and no cancellation
leaves the context state exactly as it was. -/
theorem updatePhase_frame {msg : String} {now : DateTime} {r : Nat}
    {dateOk addrOk : Bool} {state : ConvState}
    (hconf : is_confirmation msg = false) (hcanc : is_cancellation msg = false)
    (hnd : ∀ vo, state.verified_order = some vo →
      extract_new_date msg now (some vo.delivery_date) r = none) :
    updatePhase msg now r none dateOk addrOk state = (state, []) := by
  obtain ⟨vOpt, pd, pa⟩ := state
  cases vOpt with
  | none => rfl
  | some vo =>
    have hnd' := hnd vo rfl
    unfold updatePhase
    dsimp only
    rw [hnd', hconf, hcanc]
    rfl

/-- When the verify branch does not fire (no id+email pair extracted, or
the lookup misses), processing reduces to the update machinery on the
stored state. -/
theorem process_message_update (msg : String) (now : DateTime) (r : Nat)
    {oidE emE : Option String} (new_address : Option Address)
    {findRes : Option OrderRec} (dateOk addrOk : Bool) (st : ConvState)
    (hskip : (oidE.isSome && emE.isSome) = false ∨ findRes = none) :
    process_message msg now r oidE emE new_address findRes dateOk addrOk true (some st) =
      (some (updatePhase msg now r new_address dateOk addrOk st).1,
        (updatePhase msg now r new_address dateOk addrOk st).2) := by
  unfold process_message
  rcases hskip with h | h
  · rw [if_neg (by simp [h])]
  · by_cases hoe : (oidE.isSome && emE.isSome) = true
    · rw [if_pos hoe, h]
    · rw [if_neg hoe]

/-- C2 counterexample: a turn that successfully re-verifies (here: the
same order id and email again) replaces the whole per-context record with
a fresh one.  The still-unconfirmed pending date `"3/15/2026"` staged on
an earlier turn is discarded even though this turn neither applied it
(no store write is issued) nor cancelled it — refuting the claim that a
later turn only ever clears individual fields and that a pending change
persists across a re-verifying turn. -/
theorem C2_reverify_counterexample :
    process_message "3DV7KU4PK54 cworshall0@flavors.me" ⟨⟨2026, 3, 10⟩, 870⟩ 0
        (some "3DV7KU4PK54") (some "cworshall0@flavors.me") none (some cRow) true true
        true (some ⟨some cRow, some "3/15/2026", none⟩) =
      (some ⟨some cRow, none, none⟩, []) := rfl

/-- C2 (amended): once a `ConvState` record exists for a context it is
never deleted — every turn leaves `some` record in place.  On every turn
on which the verify branch does not fire, only individual fields change:
the verified snapshot keeps its identity fields, its delivery date
changes only by a successful confirmed apply of the pending date, its
address fields change only by a successful confirmed apply of the pending
address, and each pending slot is exactly determined by its own events —
a staged value fills its slot, a cancellation with something pending
clears both slots, a successful confirmed apply clears its slot, and the
slot is otherwise untouched (so, for instance, a turn that stages a new
date preserves a still-pending address update).  A turn that stages
nothing, confirms nothing and cancels nothing leaves the record exactly
unchanged.  The sole exception is a turn that successfully re-verifies:
it replaces the whole record with a fresh verified snapshot, discarding
any still-unconfirmed pending change. -/
theorem C2_record_persistence
    (msg : String) (now : DateTime) (r : Nat) (oidE emE : Option String)
    (new_address : Option Address) (findRes : Option OrderRec) (dateOk addrOk : Bool)
    (st : ConvState) :
    (∃ st', (process_message msg now r oidE emE new_address findRes dateOk addrOk
        true (some st)).1 = some st') ∧
    (∀ o, (oidE.isSome && emE.isSome) = true → findRes = some o →
      (process_message msg now r oidE emE new_address findRes dateOk addrOk
        true (some st)).1 = some ⟨some o, none, none⟩) ∧
    (((oidE.isSome && emE.isSome) = false ∨ findRes = none) →
      is_confirmation msg = false → is_cancellation msg = false → new_address = none →
      (∀ vo, st.verified_order = some vo →
        extract_new_date msg now (some vo.delivery_date) r = none) →
      (process_message msg now r oidE emE new_address findRes dateOk addrOk
        true (some st)).1 = some st) ∧
    (∀ vo pdv pav, st = ⟨some vo, pdv, pav⟩ →
      ((oidE.isSome && emE.isSome) = false ∨ findRes = none) →
      ∃ st' vo',
        (process_message msg now r oidE emE new_address findRes dateOk addrOk
          true (some st)).1 = some st' ∧
        st'.verified_order = some vo' ∧
        vo'.order_id = vo.order_id ∧ vo'.email = vo.email ∧
        vo'.first_name = vo.first_name ∧ vo'.last_name = vo.last_name ∧
        st'.pending_date_update =
          (match extract_new_date msg now (some vo.delivery_date) r with
           | some d => some d
           | none =>
             if is_confirmation msg = true ∧ dateOk = true then none
             else if (is_cancellation msg && (pdv.isSome || pav.isSome)) = true then none
             else pdv) ∧
        st'.pending_address_update =
          (match new_address with
           | some a => some a
           | none =>
             if is_confirmation msg = true ∧ addrOk = true then none
             else if (is_cancellation msg && (pdv.isSome || pav.isSome)) = true then none
             else pav) ∧
        (vo'.delivery_date = vo.delivery_date ∨
          (extract_new_date msg now (some vo.delivery_date) r = none ∧
            is_confirmation msg = true ∧ dateOk = true ∧
            (if (is_cancellation msg && (pdv.isSome || pav.isSome)) = true then none
              else pdv) = some vo'.delivery_date)) ∧
        ((vo'.street = vo.street ∧ vo'.city = vo.city ∧ vo'.state = vo.state ∧
            vo'.zipcode = vo.zipcode) ∨
          (new_address = none ∧ is_confirmation msg = true ∧ addrOk = true ∧
            (if (is_cancellation msg && (pdv.isSome || pav.isSome)) = true then none
              else pav) = some ⟨vo'.street, vo'.city, vo'.state, vo'.zipcode⟩))) := by
  refine ⟨?_, ?_, ?_, ?_⟩
  · unfold process_message
    by_cases hoe : (oidE.isSome && emE.isSome) = true
    · rw [if_pos hoe]
      cases findRes with
      | some o => exact ⟨⟨some o, none, none⟩, rfl⟩
      | none => exact ⟨_, rfl⟩
    · rw [if_neg hoe]
      exact ⟨_, rfl⟩
  · intro o hoe hf
    unfold process_message
    rw [if_pos hoe, hf]
    rfl
  · intro hskip hconf hcanc hna hnd
    subst hna
    have hup := @updatePhase_frame msg now r dateOk addrOk st hconf hcanc hnd
    unfold process_message
    rcases hskip with h | h
    · rw [if_neg (by simp [h])]
      dsimp only
      rw [hup]
    · by_cases hoe : (oidE.isSome && emE.isSome) = true
      · rw [if_pos hoe, h]
        dsimp only
        rw [hup]
      · rw [if_neg hoe]
        dsimp only
        rw [hup]
  · intro vo pdv pav hst hskip
    subst hst
    have hred := process_message_update msg now r new_address dateOk addrOk
      ⟨some vo, pdv, pav⟩ hskip
    have HD := dateSection_vo_fields (is_confirmation msg)
      (extract_new_date msg now (some vo.delivery_date) r)
      (if (is_cancellation msg && (pdv.isSome || pav.isSome)) = true then none else pdv)
      vo dateOk
    have HDpd := dateSection_pd (is_confirmation msg)
      (extract_new_date msg now (some vo.delivery_date) r)
      (if (is_cancellation msg && (pdv.isSome || pav.isSome)) = true then none else pdv)
      vo dateOk
    have HA := addrSection_vo_fields (is_confirmation msg) new_address
      (if (is_cancellation msg && (pdv.isSome || pav.isSome)) = true then none else pav)
      ((dateSection (is_confirmation msg)
        (extract_new_date msg now (some vo.delivery_date) r)
        (if (is_cancellation msg && (pdv.isSome || pav.isSome)) = true then none else pdv)
        vo dateOk).2.1) addrOk
    have HApa := addrSection_pa (is_confirmation msg) new_address
      (if (is_cancellation msg && (pdv.isSome || pav.isSome)) = true then none else pav)
      ((dateSection (is_confirmation msg)
        (extract_new_date msg now (some vo.delivery_date) r)
        (if (is_cancellation msg && (pdv.isSome || pav.isSome)) = true then none else pdv)
        vo dateOk).2.1) addrOk
    rw [hred]
    unfold updatePhase
    dsimp only
    generalize hds : dateSection (is_confirmation msg)
      (extract_new_date msg now (some vo.delivery_date) r)
      (if (is_cancellation msg && (pdv.isSome || pav.isSome)) = true then none else pdv)
      vo dateOk = ds
    rw [hds] at HD HDpd HA HApa
    generalize haz : addrSection (is_confirmation msg) new_address
      (if (is_cancellation msg && (pdv.isSome || pav.isSome)) = true then none else pav)
      ds.2.1 addrOk = az
    rw [haz] at HA HApa
    obtain ⟨hd1, hd2, hd3, hd4, hd5, hd6, hd7, hd8, hdOr⟩ := HD
    obtain ⟨ha1, ha2, ha3, ha4, ha5, haOr⟩ := HA
    refine ⟨⟨some az.2.1, ds.1, az.1⟩, az.2.1, rfl, rfl, ?_, ?_, ?_, ?_, ?_, ?_, ?_, ?_⟩
    · exact ha1.trans hd1
    · exact ha2.trans hd2
    · exact ha3.trans hd3
    · exact ha4.trans hd4
    · exact HDpd
    · exact HApa
    · rcases hdOr with h | ⟨e1, e2, e3, e4⟩
      · exact Or.inl (ha5.trans h)
      · refine Or.inr ⟨e1, e2, e3, ?_⟩
        rw [ha5]
        exact e4
    · rcases haOr with ⟨s1, s2, s3, s4⟩ | h
      · exact Or.inl ⟨s1.trans hd5, s2.trans hd6, s3.trans hd7, s4.trans hd8⟩
      · exact Or.inr h

/-- C4: on a pure confirmation turn (no new value extracted, no
cancellation), a pending slot whose store update returns `false` is left
intact for retry and the corresponding snapshot fields are untouched,
while a pending slot whose update returns `true` is cleared and the
snapshot field replaced by the confirmed value. -/
theorem C4_store_failure_preserves_pending
    (msg : String) (now : DateTime) (r : Nat) (oidE emE : Option String)
    (findRes : Option OrderRec) (dateOk addrOk : Bool)
    (vo : OrderRec) (pd : Option String) (pa : Option Address)
    (hskip : (oidE.isSome && emE.isSome) = false ∨ findRes = none)
    (hconf : is_confirmation msg = true) (hcanc : is_cancellation msg = false)
    (hnd : extract_new_date msg now (some vo.delivery_date) r = none) :
    ∃ st', (process_message msg now r oidE emE none findRes dateOk addrOk true
        (some ⟨some vo, pd, pa⟩)).1 = some st' ∧
      (∀ p, pd = some p →
        (dateOk = false → st'.pending_date_update = some p ∧
          ∀ vo', st'.verified_order = some vo' → vo'.delivery_date = vo.delivery_date) ∧
        (dateOk = true → st'.pending_date_update = none ∧
          ∃ vo', st'.verified_order = some vo' ∧ vo'.delivery_date = p)) ∧
      (∀ a, pa = some a →
        (addrOk = false → st'.pending_address_update = some a ∧
          ∀ vo', st'.verified_order = some vo' →
            vo'.street = vo.street ∧ vo'.city = vo.city ∧
            vo'.state = vo.state ∧ vo'.zipcode = vo.zipcode) ∧
        (addrOk = true → st'.pending_address_update = none ∧
          ∃ vo', st'.verified_order = some vo' ∧
            vo'.street = a.street ∧ vo'.city = a.city ∧
            vo'.state = a.state ∧ vo'.zipcode = a.zipcode)) := by
  have hred : process_message msg now r oidE emE none findRes dateOk addrOk true
      (some ⟨some vo, pd, pa⟩) =
      (some (updatePhase msg now r none dateOk addrOk ⟨some vo, pd, pa⟩).1,
        (updatePhase msg now r none dateOk addrOk ⟨some vo, pd, pa⟩).2) := by
    unfold process_message
    rcases hskip with h | h
    · rw [if_neg (by simp [h])]
    · by_cases hoe : (oidE.isSome && emE.isSome) = true
      · rw [if_pos hoe, h]
      · rw [if_neg hoe]
  rw [hred]
  have hcore : updatePhase msg now r none dateOk addrOk ⟨some vo, pd, pa⟩ =
      (⟨some (addrSection true none pa (dateSection true none pd vo dateOk).2.1 addrOk).2.1,
        (dateSection true none pd vo dateOk).1,
        (addrSection true none pa (dateSection true none pd vo dateOk).2.1 addrOk).1⟩,
       (dateSection true none pd vo dateOk).2.2 ++
        (addrSection true none pa (dateSection true none pd vo dateOk).2.1 addrOk).2.2) := by
    unfold updatePhase
    dsimp only
    rw [hnd, hconf, hcanc]
    rfl
  rw [hcore]
  rcases pd with _ | p <;> rcases pa with _ | a <;>
    cases dateOk <;> cases addrOk <;>
    dsimp only [dateSection, addrSection, applyAddr] <;>
    refine ⟨_, rfl, ?_, ?_⟩ <;>
    intro x hx <;>
    first
      | exact Option.noConfusion hx
      | (injection hx with hx
         subst hx
         refine ⟨fun hb => ?_, fun hb => ?_⟩ <;>
           first
             | exact Bool.noConfusion hb
             | exact ⟨rfl, fun vo' hvo' => by
                 injection hvo' with hvo'
                 subst hvo'
                 rfl⟩
             | exact ⟨rfl, fun vo' hvo' => by
                 injection hvo' with hvo'
                 subst hvo'
                 exact ⟨rfl, rfl, rfl, rfl⟩⟩
             | exact ⟨rfl, _, rfl, rfl⟩
             | exact ⟨rfl, _, rfl, rfl, rfl, rfl, rfl⟩)

/-- C10: when a message triggers both the cancellation check and the
confirmation check while at least one change is pending, cancellation is
evaluated first: both pending slots are cleared, the verified snapshot is
untouched, and no store write is issued — the confirmation branch finds
no pending value left to apply. -/
theorem C10_cancellation_before_confirmation
    (msg : String) (now : DateTime) (r : Nat) (oidE emE : Option String)
    (findRes : Option OrderRec) (dateOk addrOk : Bool)
    (vo : OrderRec) (pd : Option String) (pa : Option Address)
    (hskip : (oidE.isSome && emE.isSome) = false ∨ findRes = none)
    (hpend : (pd.isSome || pa.isSome) = true)
    (hconf : is_confirmation msg = true) (hcanc : is_cancellation msg = true)
    (hnd : extract_new_date msg now (some vo.delivery_date) r = none) :
    process_message msg now r oidE emE none findRes dateOk addrOk true
      (some ⟨some vo, pd, pa⟩) = (some ⟨some vo, none, none⟩, []) := by
  rw [process_message_update msg now r none dateOk addrOk ⟨some vo, pd, pa⟩ hskip]
  unfold updatePhase
  dsimp only
  rw [hnd, hconf, hcanc, hpend]
  rfl

/-- Digit-group shapes produced by `digitsBeforeSep`. -/
theorem digitsBeforeSep_shape {sep : Char} {l ds r : List Char}
    (h : digitsBeforeSep sep l = some (ds, r)) :
    (∃ a, ds = [a] ∧ a.isDigit = true) ∨
    (∃ a b, ds = [a, b] ∧ a.isDigit = true ∧ b.isDigit = true) := by
  cases l with
  | nil => exact absurd h (by simp [digitsBeforeSep])
  | cons c1 t =>
    cases t with
    | nil => exact absurd h (by simp [digitsBeforeSep])
    | cons c2 rest =>
      unfold digitsBeforeSep at h
      dsimp only at h
      by_cases h1 : c1.isDigit = true
      · rw [if_pos h1] at h
        by_cases h2 : c2.isDigit = true
        · rw [if_pos h2] at h
          cases rest with
          | nil =>
            dsimp only at h
            by_cases h3 : (c2 == sep) = true
            · rw [if_pos h3] at h
              injection h with h
              injection h with h h'
              exact Or.inl ⟨c1, h.symm, h1⟩
            · rw [if_neg h3] at h
              exact absurd h (by simp)
          | cons c3 rest2 =>
            dsimp only at h
            by_cases h3 : (c3 == sep) = true
            · rw [if_pos h3] at h
              injection h with h
              injection h with h h'
              exact Or.inr ⟨c1, c2, h.symm, h1, h2⟩
            · rw [if_neg h3] at h
              by_cases h4 : (c2 == sep) = true
              · rw [if_pos h4] at h
                injection h with h
                injection h with h h'
                exact Or.inl ⟨c1, h.symm, h1⟩
              · rw [if_neg h4] at h
                exact absurd h (by simp)
        · rw [if_neg h2] at h
          by_cases h3 : (c2 == sep) = true
          · rw [if_pos h3] at h
            injection h with h
            injection h with h h'
            exact Or.inl ⟨c1, h.symm, h1⟩
          · rw [if_neg h3] at h
            exact absurd h (by simp)
      · rw [if_neg h1] at h
        exact absurd h (by simp)

/-- Year-group shape produced by `digits4`. -/
theorem digits4_shape {l ds r : List Char} (h : digits4 l = some (ds, r)) :
    ∃ a b c d, ds = [a, b, c, d] ∧ a.isDigit = true ∧ b.isDigit = true ∧
      c.isDigit = true ∧ d.isDigit = true := by
  cases l with
  | nil => exact absurd h (by simp [digits4])
  | cons a t =>
    cases t with
    | nil => exact absurd h (by simp [digits4])
    | cons b t2 =>
      cases t2 with
      | nil => exact absurd h (by simp [digits4])
      | cons c t3 =>
        cases t3 with
        | nil => exact absurd h (by simp [digits4])
        | cons d rest =>
          unfold digits4 at h
          dsimp only at h
          by_cases hd : (a.isDigit && b.isDigit && c.isDigit && d.isDigit) = true
          · rw [if_pos hd] at h
            injection h with h
            injection h with h h'
            simp only [Bool.and_eq_true] at hd
            exact ⟨a, b, c, d, h.symm, hd.1.1.1, hd.1.1.2, hd.1.2, hd.2⟩
          · rw [if_neg hd] at h
            exact absurd h (by simp)

/-- A group matched by the slash-date pattern matches the pattern again,
as the whole input. -/
theorem matchSepDateAt_self {l g : List Char} (h : matchSepDateAt '/' l = some g) :
    matchSepDateAt '/' g = some g := by
  unfold matchSepDateAt at h
  cases hm : digitsBeforeSep '/' l with
  | none => rw [hm] at h; exact absurd h (by simp)
  | some pr =>
    obtain ⟨mo, r1⟩ := pr
    rw [hm] at h
    dsimp only at h
    cases hd : digitsBeforeSep '/' r1 with
    | none => rw [hd] at h; exact absurd h (by simp)
    | some pr2 =>
      obtain ⟨da, r2⟩ := pr2
      rw [hd] at h
      dsimp only at h
      cases hy : digits4 r2 with
      | none => rw [hy] at h; exact absurd h (by simp)
      | some pr3 =>
        obtain ⟨yr, r3⟩ := pr3
        rw [hy] at h
        dsimp only at h
        by_cases hb : bEnd r3 = true
        · rw [if_pos hb] at h
          injection h with h
          subst h
          have hslash : ('/' : Char).isDigit = false := rfl
          rcases digitsBeforeSep_shape hm with ⟨a, hmo, ha⟩ | ⟨a, b, hmo, ha, hb2⟩ <;>
            rcases digitsBeforeSep_shape hd with ⟨c, hda, hc⟩ | ⟨c, d, hda, hc, hd2⟩ <;>
            obtain ⟨e, f, g1, h1, hyr, he, hf, hg1, hh1⟩ := digits4_shape hy <;>
            subst hmo <;> subst hda <;> subst hyr <;>
            simp [matchSepDateAt, digitsBeforeSep, digits4, bEnd, ha, hc,
              he, hf, hg1, hh1, hslash, *]
        · rw [if_neg hb] at h
          exact absurd h (by simp)

/-- Unfolding of the scanner on the empty input. -/
theorem scanB_nil_eq {α} (matchAt : List Char → Option α) (prev : Option Char) :
    scanB matchAt prev [] =
      (match (if boundaryOK prev then matchAt [] else none) with
       | some r => some r
       | none => none) := rfl

/-- Unfolding of the scanner by one position. -/
theorem scanB_cons_eq {α} (matchAt : List Char → Option α) (prev : Option Char)
    (c : Char) (rest : List Char) :
    scanB matchAt prev (c :: rest) =
      (match (if boundaryOK prev then matchAt (c :: rest) else none) with
       | some r => some r
       | none => scanB matchAt (some c) rest) := rfl

/-- A successful scan comes from a successful position match. -/
theorem scanB_exists {α} {matchAt : List Char → Option α} :
    ∀ {prev : Option Char} {l : List Char} {g : α},
      scanB matchAt prev l = some g → ∃ l', matchAt l' = some g := by
  intro prev l
  induction l generalizing prev with
  | nil =>
    intro g h
    rw [scanB_nil_eq] at h
    by_cases hbd : boundaryOK prev = true
    · rw [if_pos hbd] at h
      cases hm : matchAt [] with
      | none => rw [hm] at h; exact absurd h (by simp)
      | some x =>
        rw [hm] at h
        dsimp only at h
        injection h with h
        exact ⟨[], by rw [hm, h]⟩
    · rw [if_neg hbd] at h
      exact absurd h (by simp)
  | cons c rest ih =>
    intro g h
    rw [scanB_cons_eq] at h
    by_cases hbd : boundaryOK prev = true
    · rw [if_pos hbd] at h
      cases hm : matchAt (c :: rest) with
      | none =>
        rw [hm] at h
        dsimp only at h
        exact ih h
      | some x =>
        rw [hm] at h
        dsimp only at h
        injection h with h
        exact ⟨c :: rest, by rw [hm, h]⟩
    · rw [if_neg hbd] at h
      dsimp only at h
      exact ih h

/-- A match at the very start of the input is found by the scan. -/
theorem scanB_head {α} {matchAt : List Char → Option α} {l : List Char} {g : α}
    (h : matchAt l = some g) : scanB matchAt none l = some g := by
  cases l with
  | nil =>
    rw [scanB_nil_eq]
    have hbd : boundaryOK none = true := rfl
    rw [if_pos hbd, h]
  | cons c rest =>
    rw [scanB_cons_eq]
    have hbd : boundaryOK none = true := rfl
    rw [if_pos hbd, h]

/-- C6: whenever the explicit-date pattern `\b(\d{1,2}/\d{1,2}/\d{4})\b`
finds a `M/D/YYYY` substring in the message, `_extract_new_date` returns
exactly that matched substring, and resolving that output again (under
any current time, any current delivery date and any random draw) returns
it unchanged — date resolution is idempotent on such explicit dates. -/
theorem C6_explicit_date_idempotent
    (msg : String) (now : DateTime) (deliv : Option String) (r : Nat) (s : String)
    (h : searchSlashDate msg = some s) :
    extract_new_date msg now deliv r = some s ∧
    ∀ (now' : DateTime) (deliv' : Option String) (r' : Nat),
      extract_new_date s now' deliv' r' = some s := by
  unfold searchSlashDate at h
  cases hg : scanB (matchSepDateAt '/') none msg.data with
  | none => rw [hg] at h; exact absurd h (by simp)
  | some g =>
    rw [hg] at h
    have hs : s = String.mk g := by
      injection h with h
      exact h.symm
    subst hs
    constructor
    · unfold extract_new_date searchExplicit
      rw [hg]
    · intro now' deliv' r'
      obtain ⟨l', hl'⟩ := scanB_exists hg
      have hself := matchSepDateAt_self hl'
      unfold extract_new_date searchExplicit
      have hdata : (String.mk g).data = g := rfl
      rw [hdata, scanB_head hself]

/-- C6 witness: a message containing `3/15/2026` resolves to exactly that
substring, and resolving that output again (with a different clock,
delivery date and draw) returns it unchanged. -/
theorem C6_explicit_date_idempotent_witness :
    extract_new_date "please deliver on 3/15/2026 thanks" ⟨⟨2026, 3, 10⟩, 870⟩ none 0 =
      some "3/15/2026" ∧
    extract_new_date "3/15/2026" ⟨⟨2027, 11, 5⟩, 12⟩ (some "4/1/2027") 3 =
      some "3/15/2026" :=
  ⟨(C6_explicit_date_idempotent "please deliver on 3/15/2026 thanks"
      ⟨⟨2026, 3, 10⟩, 870⟩ none 0 "3/15/2026" (by decide)).1,
   (C6_explicit_date_idempotent "please deliver on 3/15/2026 thanks"
      ⟨⟨2026, 3, 10⟩, 870⟩ none 0 "3/15/2026" (by decide)).2
     ⟨⟨2027, 11, 5⟩, 12⟩ (some "4/1/2027") 3⟩

/-- The 248 day-only messages (`n` in 1..31, four suffixes, with and
without `the`) all miss the earlier patterns and extract day `n`. -/
theorem dayMsgCheck_all : ((List.range 31).all fun k => dayMsgCheck (k + 1)) = true := by
  decide

/-- Unpacked form of `dayMsgCheck_all` for one message. -/
theorem dayMsg_extract {n : Nat} {suf : String} (hn1 : 1 ≤ n) (hn2 : n ≤ 31)
    (hsuf : suf ∈ ["st", "nd", "rd", "th"]) (b : Bool) :
    searchExplicit (buildDayMsg b n suf) = none ∧
    searchMonthDay (toLowerStr (buildDayMsg b n suf)) = none ∧
    searchMD (toLowerStr (buildDayMsg b n suf)) = none ∧
    searchDayOnly (toLowerStr (buildDayMsg b n suf)) = some n := by
  have hall := dayMsgCheck_all
  rw [List.all_eq_true] at hall
  have h := hall (n - 1) (List.mem_range.mpr (by omega))
  rw [show n - 1 + 1 = n by omega] at h
  unfold dayMsgCheck at h
  rw [List.all_eq_true] at h
  have h2 := h suf hsuf
  rw [List.all_eq_true] at h2
  have h3 := h2 b (by cases b <;> simp)
  simp only [Bool.and_eq_true, Option.isNone_iff_eq_none, beq_iff_eq] at h3
  exact ⟨h3.1.1.1, h3.1.1.2, h3.1.2, h3.2⟩

/-- Constructor form of `ValidDate` with the projections reduced. -/
theorem validDate_mk {y m dd : Nat} (h1 : 1 ≤ y) (h2 : y ≤ 9999) (h3 : 1 ≤ m)
    (h4 : m ≤ 12) (h5 : 1 ≤ dd) (h6 : dd ≤ daysInMonth y m) :
    ValidDate ⟨y, m, dd⟩ := ⟨h1, h2, h3, h4, h5, h6⟩

/-- Projection form of the day bound of `ValidDate`. -/
theorem validDate_dim {y m dd : Nat} (h : ValidDate ⟨y, m, dd⟩) :
    dd ≤ daysInMonth y m := h.2.2.2.2.2

/-- A day at most 31 that does not fit in a month fits in the following
month, which never wraps the year. -/
theorem dim_next_of_lt {y z m n : Nat} (hm1 : 1 ≤ m) (hm2 : m ≤ 12) (hn : n ≤ 31)
    (h : daysInMonth y m < n) : m + 1 ≤ 12 ∧ daysInMonth z (m + 1) = 31 := by
  unfold daysInMonth at h ⊢
  interval_cases m <;> simp_all <;> omega

/-- Characterization of the day-only resolution: current month, rolled
forward one month when the day has passed (boundary inclusive, December
wraps), and one month further when the day does not exist in the target
month. -/
theorem dayOnlyResolve_char {n : Nat} {d : SDate} (hv : ValidDate d) (hy : d.year ≤ 9998)
    (hn1 : 1 ≤ n) (hn2 : n ≤ 31) :
    ∃ t, dayOnlyResolve n d = some t ∧ t.day = n ∧
      (let m0 : Nat := if n ≤ d.day then (if d.month + 1 > 12 then 1 else d.month + 1)
        else d.month
       let y0 : Nat := if n ≤ d.day ∧ d.month + 1 > 12 then d.year + 1 else d.year
       (n ≤ daysInMonth y0 m0 → t.month = m0 ∧ t.year = y0) ∧
       (daysInMonth y0 m0 < n → t.month = m0 + 1 ∧ t.year = y0)) := by
  obtain ⟨hy1, _hy2, hm1, hm2, hd1, _hd2⟩ := hv
  unfold dayOnlyResolve
  rw [if_pos ⟨hn1, hn2⟩]
  dsimp only
  by_cases hle : n ≤ d.day
  · by_cases h12 : d.month + 1 > 12
    · rw [if_pos hle, if_pos h12]
      dsimp only
      by_cases hdim : n ≤ daysInMonth (d.year + 1) 1
      · rw [if_pos (validDate_mk (by omega) (by omega) (by omega) (by omega) hn1 hdim)]
        refine ⟨⟨d.year + 1, 1, n⟩, rfl, rfl, ?_⟩
        rw [if_pos hle, if_pos h12, if_pos ⟨hle, h12⟩]
        exact ⟨fun _ => ⟨rfl, rfl⟩, fun hlt => absurd hdim (by omega)⟩
      · exact absurd (by have h31 : daysInMonth (d.year + 1) 1 = 31 := rfl; omega) hdim
    · rw [if_pos hle, if_neg h12]
      dsimp only
      by_cases hdim : n ≤ daysInMonth d.year (d.month + 1)
      · rw [if_pos (validDate_mk (by omega) (by omega) (by omega) (by omega) hn1 hdim)]
        refine ⟨⟨d.year, d.month + 1, n⟩, rfl, rfl, ?_⟩
        rw [if_pos hle, if_neg h12, if_neg (by tauto)]
        exact ⟨fun _ => ⟨rfl, rfl⟩, fun hlt => absurd hdim (by omega)⟩
      · have hnext := dim_next_of_lt (y := d.year) (z := d.year)
          (show 1 ≤ d.month + 1 by omega) (show d.month + 1 ≤ 12 by omega) hn2
          (by omega)
        rw [if_neg (show ¬ ValidDate ⟨d.year, d.month + 1, n⟩ from fun hvv =>
          absurd (validDate_dim hvv) (by omega))]
        rw [if_neg (show ¬ d.month + 1 + 1 > 12 by omega)]
        rw [if_pos (validDate_mk (by omega) (by omega) (by omega) (by omega) hn1
          (show n ≤ daysInMonth d.year (d.month + 1 + 1) by omega))]
        refine ⟨⟨d.year, d.month + 1 + 1, n⟩, rfl, rfl, ?_⟩
        rw [if_pos hle, if_neg h12, if_neg (by tauto)]
        exact ⟨fun hdim2 => absurd hdim2 (by omega), fun _ => ⟨rfl, rfl⟩⟩
  · rw [if_neg hle]
    dsimp only
    by_cases hdim : n ≤ daysInMonth d.year d.month
    · rw [if_pos (validDate_mk (by omega) (by omega) (by omega) (by omega) hn1 hdim)]
      refine ⟨⟨d.year, d.month, n⟩, rfl, rfl, ?_⟩
      rw [if_neg hle, if_neg (by tauto)]
      exact ⟨fun _ => ⟨rfl, rfl⟩, fun hlt => absurd hdim (by omega)⟩
    · have hnext := dim_next_of_lt (y := d.year) (z := d.year) hm1 hm2 hn2 (by omega)
      rw [if_neg (show ¬ ValidDate ⟨d.year, d.month, n⟩ from fun hvv =>
          absurd (validDate_dim hvv) (by omega))]
      rw [if_neg (show ¬ d.month + 1 > 12 by omega)]
      rw [if_pos (validDate_mk (by omega) (by omega) (by omega) (by omega) hn1
        (show n ≤ daysInMonth d.year (d.month + 1) by omega))]
      refine ⟨⟨d.year, d.month + 1, n⟩, rfl, rfl, ?_⟩
      rw [if_neg hle, if_neg (by tauto)]
      exact ⟨fun hdim2 => absurd hdim2 (by omega), fun _ => ⟨rfl, rfl⟩⟩

/-- C5 counterexample: with today = 2026-02-10, the day 30 is strictly
greater than today's day-of-month, so the claim as stated predicts the
current month (February); but February 30 does not exist and the code
rolls one month further, resolving `"the 30th"` to March 30. -/
theorem C5_day_only_counterexample :
    extract_new_date "the 30th" ⟨⟨2026, 2, 10⟩, 540⟩ none 0 =
      some (fmtDate ⟨2026, 3, 30⟩) ∧
    10 < 30 ∧ (⟨2026, 3, 30⟩ : SDate).month ≠ (⟨2026, 2, 10⟩ : SDate).month :=
  ⟨by decide, by decide, by decide⟩

/-- C5 (amended): for every day-only message `[the] N<st|nd|rd|th>` with
`1 ≤ N ≤ 31`, the resolved day is `N`; the target month is the current
month when `N` is strictly greater than today's day-of-month and the next
month when `N ≤` today's day (wrapping December to January with the year
incremented) — except that when day `N` does not exist in that target
month, the resolution rolls one month further (which never wraps the
year).  At the boundary `N` = today's day the date rolls forward. -/
theorem C5_day_only_resolution (b : Bool) (n : Nat) (suf : String) (now : DateTime)
    (deliv : Option String) (r : Nat)
    (hn1 : 1 ≤ n) (hn2 : n ≤ 31) (hsuf : suf ∈ ["st", "nd", "rd", "th"])
    (hv : ValidDate now.date) (hy : now.date.year ≤ 9998) :
    ∃ t, extract_new_date (buildDayMsg b n suf) now deliv r = some (fmtDate t) ∧
      t.day = n ∧
      (let m0 : Nat := if n ≤ now.date.day
          then (if now.date.month + 1 > 12 then 1 else now.date.month + 1)
        else now.date.month
       let y0 : Nat := if n ≤ now.date.day ∧ now.date.month + 1 > 12
          then now.date.year + 1 else now.date.year
       (n ≤ daysInMonth y0 m0 → t.month = m0 ∧ t.year = y0) ∧
       (daysInMonth y0 m0 < n → t.month = m0 + 1 ∧ t.year = y0)) := by
  obtain ⟨hE, hMN, hMD, hDO⟩ := dayMsg_extract hn1 hn2 hsuf b
  obtain ⟨t, hres, hday, hchar⟩ := dayOnlyResolve_char (d := now.date) hv hy hn1 hn2
  refine ⟨t, ?_, hday, hchar⟩
  simp only [extract_new_date, hE, hMN, hMD, hDO, hres]

/-- C5 witness: on 2026-03-10 the message `"the 21st"` resolves to day 21
of the current month (March 2026), since 21 has not yet passed. -/
theorem C5_day_only_resolution_witness :
    ∃ t, extract_new_date (buildDayMsg true 21 "st") ⟨⟨2026, 3, 10⟩, 870⟩ none 0 =
        some (fmtDate t) ∧
      t.day = 21 ∧
      (let m0 : Nat := if 21 ≤ 10 then (if 3 + 1 > 12 then 1 else 3 + 1) else 3
       let y0 : Nat := if 21 ≤ 10 ∧ 3 + 1 > 12 then 2026 + 1 else 2026
       (21 ≤ daysInMonth y0 m0 → t.month = m0 ∧ t.year = y0) ∧
       (daysInMonth y0 m0 < 21 → t.month = m0 + 1 ∧ t.year = y0)) :=
  C5_day_only_resolution true 21 "st" ⟨⟨2026, 3, 10⟩, 870⟩ none 0
    (by decide) (by decide) (by decide) (by decide) (by decide)

theorem cumDays_step (y k : Nat) : cumDays y k ≤ cumDays y (k + 1) := by
  cases k with
  | zero => exact Nat.le_refl _
  | succ k' =>
    rw [cumDays_succ y (k' + 1) (by omega)]
    omega

theorem cumDays_mono (y : Nat) : ∀ {a b : Nat}, a ≤ b → cumDays y a ≤ cumDays y b := by
  intro a b h
  induction b with
  | zero =>
    match a, h with
    | 0, _ => exact Nat.le_refl _
  | succ k ih =>
    rcases Nat.eq_or_lt_of_le h with rfl | hlt
    · exact Nat.le_refl _
    · exact le_trans (ih (by omega)) (cumDays_step y k)

theorem cum_day_bound {y m day : Nat} (hm1 : 1 ≤ m) (hm2 : m ≤ 12)
    (hd : day ≤ daysInMonth y m) :
    cumDays y m + day ≤ 365 + (if isLeap y then 1 else 0) := by
  have h1 : cumDays y m + day ≤ cumDays y m + daysInMonth y m := by omega
  rw [← cumDays_succ y m hm1] at h1
  have h2 : cumDays y (m + 1) ≤ cumDays y 13 := cumDays_mono y (by omega)
  have h3 : cumDays y 13 = 365 + (if isLeap y then 1 else 0) := by
    rw [cumDays_succ y 12 (by omega)]
    exact cumDays_twelve y
  omega

/-- Every representable date has ordinal at most that of 9999-12-31. -/
theorem toOrd_le_max {d : SDate} (hv : ValidDate d) : toOrd d ≤ 3652059 := by
  obtain ⟨y, m, dd⟩ := d
  obtain ⟨h1, h2, h3, h4, h5, h6⟩ := hv
  replace h1 : 1 ≤ y := h1
  replace h2 : y ≤ 9999 := h2
  replace h3 : 1 ≤ m := h3
  replace h4 : m ≤ 12 := h4
  replace h5 : 1 ≤ dd := h5
  replace h6 : dd ≤ daysInMonth y m := h6
  have hcum := cum_day_bound h3 h4 h6
  unfold toOrd
  dsimp only
  by_cases hy : y = 9999
  · subst hy
    have hcum' : cumDays 9999 m + dd ≤ 365 := by
      have hL : isLeap 9999 = false := rfl
      rw [hL] at hcum
      simpa using hcum
    omega
  · have hy' : y ≤ 9998 := by omega
    have hif : (if isLeap y then 1 else 0) ≤ 1 := by split <;> omega
    omega

/-- Day-successor preserves validity while strictly below 9999-12-31. -/
theorem succDay_valid_ord {d : SDate} (h : ValidDate d) (hlt : toOrd d < 3652059) :
    ValidDate (succDay d) := by
  obtain ⟨y, m, dd⟩ := d
  obtain ⟨h1, h2, h3, h4, h5, h6⟩ := h
  replace h1 : 1 ≤ y := h1
  replace h2 : y ≤ 9999 := h2
  replace h3 : 1 ≤ m := h3
  replace h4 : m ≤ 12 := h4
  replace h5 : 1 ≤ dd := h5
  replace h6 : dd ≤ daysInMonth y m := h6
  by_cases hy : y ≤ 9998
  · exact succDay_valid ⟨h1, h2, h3, h4, h5, h6⟩ hy
  · have hy9 : y = 9999 := by omega
    subst hy9
    unfold succDay
    split
    · next hc =>
      replace hc : dd < daysInMonth 9999 m := hc
      refine ⟨h1, h2, h3, h4, ?_, ?_⟩
      · show 1 ≤ dd + 1; omega
      · show dd + 1 ≤ daysInMonth 9999 m; omega
    · split
      · next _ hc =>
        replace hc : m < 12 := hc
        have hb := daysInMonth_bounds 9999 (m + 1)
        refine ⟨h1, h2, ?_, ?_, ?_, ?_⟩
        · show 1 ≤ m + 1; omega
        · show m + 1 ≤ 12; omega
        · show 1 ≤ 1; omega
        · show 1 ≤ daysInMonth 9999 (m + 1); omega
      · next hc hc2 =>
        replace hc : ¬ dd < daysInMonth 9999 m := hc
        replace hc2 : ¬ m < 12 := hc2
        have hm12 : m = 12 := by omega
        subst hm12
        have hdim : daysInMonth 9999 12 = 31 := rfl
        have hdd : dd = 31 := by omega
        subst hdd
        have hmax : toOrd ⟨9999, 12, 31⟩ = 3652059 := by decide
        rw [hmax] at hlt
        omega

/-- Adding days stays valid and adds to the ordinal while the target
remains representable. -/
theorem addDays_ord {d : SDate} (h : ValidDate d) :
    ∀ n, toOrd d + n ≤ 3652059 →
      ValidDate (addDays d n) ∧ toOrd (addDays d n) = toOrd d + n := by
  intro n
  induction n with
  | zero => exact fun _ => ⟨h, rfl⟩
  | succ k ih =>
    intro hb
    obtain ⟨hv, hord⟩ := ih (by omega)
    have hvs : ValidDate (succDay (addDays d k)) :=
      succDay_valid_ord hv (by omega)
    refine ⟨hvs, ?_⟩
    show toOrd (succDay (addDays d k)) = _
    rw [toOrd_succDay hv, hord]
    omega

/-- A parsed delivery date is a representable `datetime` date. -/
theorem parseDelivery_valid {s : String} {dd : SDate} (h : parseDelivery s = some dd) :
    ValidDate dd := by
  unfold parseDelivery at h
  split at h
  · split at h
    · split at h
      · split at h
        · next hvv =>
          injection h with h
          subst h
          exact hvv
        · cases h
      · cases h
    · cases h
  · cases h

/-- C3 counterexample: today is 2026-03-10 (midnight) and the current
delivery date 3/13/2026 lies strictly after tomorrow, so the claim
demands a result strictly between 3/11 and 3/13 for every random choice;
but the legal draw 0 (from `randint(0, delta-1)` with `delta = 2`)
resolves `"sooner"` to exactly 3/11/2026 — tomorrow itself, not strictly
after it. -/
theorem C3_sooner_counterexample :
    extract_new_date "sooner" ⟨⟨2026, 3, 10⟩, 0⟩ (some "3/13/2026") 0 =
      some "3/11/2026" ∧
    fmtDate (addDays ⟨2026, 3, 10⟩ 1) = "3/11/2026" :=
  ⟨by decide, by decide⟩

/-- C3 (amended): for every message that reaches the sooner/earlier
branch (no earlier date rule matched), if the current delivery date is
supplied, parses, and lies strictly after tomorrow (as a midnight instant
compared to tomorrow's clock time), the resolved date is at least
tomorrow and strictly before the delivery date, for every legal random
draw; when the delivery date is missing, malformed, or not after
tomorrow, the result is exactly tomorrow. -/
theorem C3_sooner_resolution
    (msg : String) (now : DateTime) (deliv : Option String) (r : Nat)
    (hE : searchExplicit msg = none)
    (hMN : searchMonthDay (toLowerStr msg) = none)
    (hMD : searchMD (toLowerStr msg) = none)
    (hDO : searchDayOnly (toLowerStr msg) = none)
    (hT : containsStr (toLowerStr msg) "tomorrow" = false)
    (hNWE : containsStr (toLowerStr msg) "next weekend" = false)
    (hW : containsStr (toLowerStr msg) "weekend" = false)
    (hNW : containsStr (toLowerStr msg) "next week" = false)
    (hWd : searchNextWd (toLowerStr msg) = none)
    (hSE : (containsStr (toLowerStr msg) "sooner" ||
      containsStr (toLowerStr msg) "earlier") = true)
    (hv : ValidDate now.date) (hmin : now.minute < 1440) :
    (∀ ds dd, deliv = some ds → parseDelivery ds = some dd →
      toOrd dd * 1440 > (toOrd now.date + 1) * 1440 + now.minute →
      ((toOrd dd * 1440 - (toOrd now.date + 1) * 1440 - now.minute) / 1440 ≤ 1 ∨
        r + 1 ≤ (toOrd dd * 1440 - (toOrd now.date + 1) * 1440 - now.minute) / 1440) →
      ∃ t, extract_new_date msg now deliv r = some (fmtDate t) ∧
        toOrd now.date + 1 ≤ toOrd t ∧ toOrd t < toOrd dd) ∧
    (deliv = none →
      extract_new_date msg now deliv r = some (fmtDate (addDays now.date 1))) ∧
    (∀ ds, deliv = some ds → parseDelivery ds = none →
      extract_new_date msg now deliv r = some (fmtDate (addDays now.date 1))) ∧
    (∀ ds dd, deliv = some ds → parseDelivery ds = some dd →
      ¬ (toOrd dd * 1440 > (toOrd now.date + 1) * 1440 + now.minute) →
      extract_new_date msg now deliv r = some (fmtDate (addDays now.date 1))) := by
  have hred : extract_new_date msg now deliv r =
      (relativeTarget (toLowerStr msg) now deliv r).map fmtDate := by
    simp only [extract_new_date, hE, hMN, hMD, hDO]
  refine ⟨?_, ?_, ?_, ?_⟩
  · intro ds dd hds hparse hcond hr
    subst hds
    have hrel : relativeTarget (toLowerStr msg) now (some ds) r =
        (if toOrd dd * 1440 > (toOrd now.date + 1) * 1440 + now.minute then
          some (addDays now.date (1 +
            (if (toOrd dd * 1440 - (toOrd now.date + 1) * 1440 - now.minute) / 1440 > 1
              then r else 0)))
        else some (addDays now.date 1)) := by
      unfold relativeTarget
      simp only [hT, hNWE, hW, hNW, hWd, hSE, Bool.false_eq_true, if_false, if_true,
        hparse]
    rw [hrel, if_pos hcond] at hred
    have hDmax : toOrd dd ≤ 3652059 := toOrd_le_max (parseDelivery_valid hparse)
    have hD2 : toOrd now.date + 2 ≤ toOrd dd := by omega
    by_cases hgt : (toOrd dd * 1440 - (toOrd now.date + 1) * 1440 - now.minute) / 1440 > 1
    · rw [if_pos hgt] at hred
      have hrle : r + 1 ≤ (toOrd dd * 1440 - (toOrd now.date + 1) * 1440 - now.minute) / 1440 := by
        rcases hr with h | h
        · omega
        · exact h
      have hdelta_le : (toOrd dd * 1440 - (toOrd now.date + 1) * 1440 - now.minute) / 1440 ≤
          toOrd dd - toOrd now.date - 1 := by omega
      have hb : toOrd now.date + (1 + r) ≤ 3652059 := by omega
      obtain ⟨_hv2, hord⟩ := addDays_ord hv (1 + r) hb
      exact ⟨addDays now.date (1 + r), hred, by omega, by omega⟩
    · rw [if_neg hgt] at hred
      have hb : toOrd now.date + 1 ≤ 3652059 := by omega
      obtain ⟨_hv2, hord⟩ := addDays_ord hv 1 hb
      exact ⟨addDays now.date 1, hred, by omega, by omega⟩
  · intro hnone
    subst hnone
    have hrel : relativeTarget (toLowerStr msg) now none r = some (addDays now.date 1) := by
      unfold relativeTarget
      simp only [hT, hNWE, hW, hNW, hWd, hSE, Bool.false_eq_true, if_false, if_true]
    rw [hrel] at hred
    exact hred
  · intro ds hds hparse
    subst hds
    have hrel : relativeTarget (toLowerStr msg) now (some ds) r =
        some (addDays now.date 1) := by
      unfold relativeTarget
      simp only [hT, hNWE, hW, hNW, hWd, hSE, Bool.false_eq_true, if_false, if_true,
        hparse]
    rw [hrel] at hred
    exact hred
  · intro ds dd hds hparse hcond
    subst hds
    have hrel : relativeTarget (toLowerStr msg) now (some ds) r =
        (if toOrd dd * 1440 > (toOrd now.date + 1) * 1440 + now.minute then
          some (addDays now.date (1 +
            (if (toOrd dd * 1440 - (toOrd now.date + 1) * 1440 - now.minute) / 1440 > 1
              then r else 0)))
        else some (addDays now.date 1)) := by
      unfold relativeTarget
      simp only [hT, hNWE, hW, hNW, hWd, hSE, Bool.false_eq_true, if_false, if_true,
        hparse]
    rw [hrel, if_neg hcond] at hred
    exact hred

/-- C3 witness: on 2026-03-10 (midnight) with delivery date 3/14/2026
(`delta = 3`) and draw 1, the result lies in [tomorrow, delivery); with
no delivery date supplied the result is exactly tomorrow. -/
theorem C3_sooner_resolution_witness :
    (∃ t, extract_new_date "sooner" ⟨⟨2026, 3, 10⟩, 0⟩ (some "3/14/2026") 1 =
        some (fmtDate t) ∧
      toOrd ⟨2026, 3, 10⟩ + 1 ≤ toOrd t ∧ toOrd t < toOrd ⟨2026, 3, 14⟩) ∧
    extract_new_date "sooner" ⟨⟨2026, 3, 10⟩, 0⟩ none 1 =
      some (fmtDate (addDays ⟨2026, 3, 10⟩ 1)) :=
  ⟨(C3_sooner_resolution "sooner" ⟨⟨2026, 3, 10⟩, 0⟩ (some "3/14/2026") 1
      (by decide) (by decide) (by decide) (by decide) (by decide) (by decide)
      (by decide) (by decide) (by decide) (by decide) (by decide) (by decide)).1
    "3/14/2026" ⟨2026, 3, 14⟩ rfl (by decide) (by decide) (Or.inr (by decide)),
   (C3_sooner_resolution "sooner" ⟨⟨2026, 3, 10⟩, 0⟩ none 1
      (by decide) (by decide) (by decide) (by decide) (by decide) (by decide)
      (by decide) (by decide) (by decide) (by decide) (by decide) (by decide)).2.1
    rfl⟩

/-- C1 witness: a bare `"yes"` turn with a pending date issues a store
write that is a confirmation of the previously staged `"3/15/2026"`. -/
theorem C1_store_write_only_on_confirmation_witness :
    is_confirmation "yes" = true ∧
    ∃ st vo, (some (⟨some cRow, some "3/15/2026", none⟩ : ConvState)) = some st ∧
      st.verified_order = some vo ∧
      ((∃ p, StoreWrite.dateW "3DV7KU4PK54" "cworshall0@flavors.me" "3/15/2026" =
          StoreWrite.dateW vo.order_id vo.email p ∧
          st.pending_date_update = some p ∧
          extract_new_date "yes" ⟨⟨2026, 3, 10⟩, 870⟩ (some vo.delivery_date) 0 = none) ∨
       (∃ a, StoreWrite.dateW "3DV7KU4PK54" "cworshall0@flavors.me" "3/15/2026" =
          StoreWrite.addrW vo.order_id vo.email a ∧
          st.pending_address_update = some a ∧ (none : Option Address) = none)) :=
  C1_store_write_only_on_confirmation "yes" ⟨⟨2026, 3, 10⟩, 870⟩ 0 none none none none
    true true true (some ⟨some cRow, some "3/15/2026", none⟩)
    (StoreWrite.dateW "3DV7KU4PK54" "cworshall0@flavors.me" "3/15/2026") (by decide)

/-- C2 witness: a successful re-verification turn yields a fresh record
with the new snapshot and empty pending slots; and a non-verifying turn
that stages a new date (`"3/15"` resolved against 2026-03-10) fills the
pending-date slot while preserving the still-pending address update and
the whole verified snapshot. -/
theorem C2_record_persistence_witness :
    ((process_message "3DV7KU4PK54 cworshall0@flavors.me" ⟨⟨2026, 3, 10⟩, 870⟩ 0
        (some "3DV7KU4PK54") (some "cworshall0@flavors.me") none (some cRow) true true
        true (some ⟨some cRow, some "3/15/2026", none⟩)).1 =
      some ⟨some cRow, none, none⟩) ∧
    (∃ st' vo',
      (process_message "3/15" ⟨⟨2026, 3, 10⟩, 870⟩ 0 none none none none false false
        true (some ⟨some cRow, none, some cAddr⟩)).1 = some st' ∧
      st'.verified_order = some vo' ∧
      vo'.order_id = cRow.order_id ∧ vo'.email = cRow.email ∧
      vo'.first_name = cRow.first_name ∧ vo'.last_name = cRow.last_name ∧
      st'.pending_date_update = some "3/15/2026" ∧
      st'.pending_address_update = some cAddr ∧
      (vo'.delivery_date = cRow.delivery_date ∨
        (extract_new_date "3/15" ⟨⟨2026, 3, 10⟩, 870⟩ (some cRow.delivery_date) 0 = none ∧
          is_confirmation "3/15" = true ∧ false = true ∧
          (none : Option String) = some vo'.delivery_date)) ∧
      ((vo'.street = cRow.street ∧ vo'.city = cRow.city ∧ vo'.state = cRow.state ∧
          vo'.zipcode = cRow.zipcode) ∨
        ((none : Option Address) = none ∧ is_confirmation "3/15" = true ∧ false = true ∧
          (some cAddr : Option Address) =
            some ⟨vo'.street, vo'.city, vo'.state, vo'.zipcode⟩))) :=
  ⟨(C2_record_persistence "3DV7KU4PK54 cworshall0@flavors.me" ⟨⟨2026, 3, 10⟩, 870⟩ 0
      (some "3DV7KU4PK54") (some "cworshall0@flavors.me") none (some cRow) true true
      ⟨some cRow, some "3/15/2026", none⟩).2.1 cRow rfl rfl,
   (C2_record_persistence "3/15" ⟨⟨2026, 3, 10⟩, 870⟩ 0 none none none none false false
      ⟨some cRow, none, some cAddr⟩).2.2.2 cRow none (some cAddr) rfl (Or.inl rfl)⟩

/-- C4 witness: a `"yes"` turn whose date and address updates both return
`false` keeps both pending values and the snapshot unchanged. -/
theorem C4_store_failure_preserves_pending_witness :
    ∃ st', (process_message "yes" ⟨⟨2026, 3, 10⟩, 870⟩ 0 none none none none false false
        true (some ⟨some cRow, some "3/15/2026", some cAddr⟩)).1 = some st' ∧
      (∀ p, (some "3/15/2026" : Option String) = some p →
        (false = false → st'.pending_date_update = some p ∧
          ∀ vo', st'.verified_order = some vo' → vo'.delivery_date = cRow.delivery_date) ∧
        (false = true → st'.pending_date_update = none ∧
          ∃ vo', st'.verified_order = some vo' ∧ vo'.delivery_date = p)) ∧
      (∀ a, (some cAddr : Option Address) = some a →
        (false = false → st'.pending_address_update = some a ∧
          ∀ vo', st'.verified_order = some vo' →
            vo'.street = cRow.street ∧ vo'.city = cRow.city ∧
            vo'.state = cRow.state ∧ vo'.zipcode = cRow.zipcode) ∧
        (false = true → st'.pending_address_update = none ∧
          ∃ vo', st'.verified_order = some vo' ∧
            vo'.street = a.street ∧ vo'.city = a.city ∧
            vo'.state = a.state ∧ vo'.zipcode = a.zipcode)) :=
  C4_store_failure_preserves_pending "yes" ⟨⟨2026, 3, 10⟩, 870⟩ 0 none none none
    false false cRow (some "3/15/2026") (some cAddr) (Or.inl rfl) (by decide) (by decide)
    (by decide)

/-- C10 witness: `"no, actually yes"` matches both keyword checks; with a
pending date staged it clears both pending slots and issues no write. -/
theorem C10_cancellation_before_confirmation_witness :
    process_message "no, actually yes" ⟨⟨2026, 3, 10⟩, 870⟩ 0 none none none none true true
      true (some ⟨some cRow, some "3/15/2026", none⟩) =
      (some ⟨some cRow, none, none⟩, []) :=
  C10_cancellation_before_confirmation "no, actually yes" ⟨⟨2026, 3, 10⟩, 870⟩ 0
    none none none true true cRow (some "3/15/2026") none (Or.inl rfl) rfl
    (by decide) (by decide) (by decide)

/-- C8 witness: the empty update is rejected leaving the table unchanged,
and the row written by a street-only update keeps its delivery date,
city, state, zipcode, order id and email. -/
theorem C8_update_validation_witness :
    update_order [cRow] "3DV7KU4PK54" "cworshall0@flavors.me" {} =
      ([cRow], false, "No fields to update") ∧
    (∃ r, r ∈ [cRow] ∧
      cRowStreetUpd.order_id = r.order_id ∧ cRowStreetUpd.email = r.email ∧
      (uStreet.delivery_date = none → cRowStreetUpd.delivery_date = r.delivery_date) ∧
      (uStreet.street = none → cRowStreetUpd.street = r.street) ∧
      (uStreet.city = none → cRowStreetUpd.city = r.city) ∧
      (uStreet.state = none → cRowStreetUpd.state = r.state) ∧
      (uStreet.zipcode = none → cRowStreetUpd.zipcode = r.zipcode)) :=
  ⟨C8_update_validation.1 [cRow] "3DV7KU4PK54" "cworshall0@flavors.me" {} rfl,
   C8_update_validation.2 [cRow] "3DV7KU4PK54" "cworshall0@flavors.me" uStreet
     cRowStreetUpd (by decide)⟩

end BCAgent
